import Mathlib

/-!
Verification of the American Roulette strategy-simulation engine.

Shallow embedding of the simulation core found in the repository:
* the bet resolver (`isWin`, `calculateDetailedOutcomes`),
* the spin normalization and color table (`getResultValue`, `NUMBER_COLORS`),
* the simulation runner (`recordStep`, `runSimulation`) with its pre-sim wait
  phases, martingale and repeat-until inner loops and node dispatch,
* the playback statistics fold of the UI layer (`displayedStats`).

Conventions of the embedding:
* JavaScript numbers that are always integers in the source are `Nat`/`Int`.
* The single float computation (`scaleFactor = tableMax / totalWager` followed
  by `Math.floor(amount * scaleFactor)`) is embedded as exact rational floor
  division `⌊amount * tableMax / totalWager⌋` (`Int.fdiv`).
* `Math.random()` is replaced by an explicit oracle `spins : Nat → Nat` giving
  the raw draw (`Math.floor(Math.random()*38)`) of each successive spin; the
  running spin counter indexes the oracle.
* Possibly-`undefined` fields are `Option`; JavaScript truthiness of numbers
  (`0`/`undefined` falsy) and strings (`""`/`undefined` falsy) is made explicit.
* The unbounded `while` of the main simulation loop is run on explicit fuel;
  the record returned by the runner carries a `finished` flag that is `true`
  exactly when the loop exited by its own exit conditions (not by fuel), plus
  the final internal machine state, exposed for specification purposes.
-/

namespace TBR

/-- Bet types, from `types.ts` (`enum BetType`). -/
inductive BetType where
  | STRAIGHT | SPLIT | STREET | CORNER | BASKET | LINE
  | COLUMN | DOZEN | RED_BLACK | EVEN_ODD | HIGH_LOW | TRIO
  deriving DecidableEq, Repr

/-- A placed wager, from `types.ts` (`interface PlacedBet`). The string `id`
field is omitted: it is never read by the engine. -/
structure PlacedBet where
  type : BetType
  numbers : List Nat
  amount : Nat
  label : Option String
  deriving DecidableEq, Repr

/-- A spin outcome number: `number | '00'` in the source. -/
inductive SpinNumber where
  | num (n : Nat)
  | zz
  deriving DecidableEq, Repr

/-- Record `{number, color}` from `types.ts` (`interface SpinResult`); the color is a
string because the source compares it against string literals. -/
structure SpinResult where
  number : SpinNumber
  color : String
  deriving DecidableEq, Repr

/-- Helper: Normalize 00 to 37 for internal numeric comparison
(`getResultValue` in the source). -/
def getResultValue : SpinNumber → Nat
  | .zz => 37
  | .num n => n

/-- The red pockets of the fixed color table `NUMBER_COLORS` in
`constants.ts`. -/
def redNumbers : List Nat := [1, 3, 5, 7, 9, 12, 14, 16, 18, 19, 21, 23, 25, 27, 30, 32, 34, 36]

/-- The color-table lookup `NUMBER_COLORS[resultNum.toString()]`, `none` when
the key is absent (an out-of-range plain number). -/
def colorLookup : SpinNumber → Option String
  | .zz => some "green"
  | .num n =>
      if n = 0 then some "green"
      else if redNumbers.contains n then some "red"
      else if n ≤ 36 then some "black"
      else none

/-- Check if a specific bet wins based on the spin result (`isWin` in the
source engine). -/
def isWin (resultNum : SpinNumber) (bet : PlacedBet) : Bool :=
  let resultVal := getResultValue resultNum
  let isZeroOrDoubleZero := resultVal = 0 || resultVal = 37
  -- FIVE-NUMBER BET (American Special: Basket), covers 0, 00(37), 1, 2, 3
  if bet.type = BetType.BASKET then
    [0, 37, 1, 2, 3].contains resultVal
  -- EVEN MONEY BETS (1:1): lose if 0 or 00 appear
  else if bet.type = BetType.RED_BLACK then
    if isZeroOrDoubleZero then false
    else colorLookup resultNum == bet.label.map String.toLower
  else if bet.type = BetType.EVEN_ODD then
    if isZeroOrDoubleZero then false
    else
      let isEven := resultVal % 2 = 0
      if bet.label = some "Even" then isEven
      else if bet.label = some "Odd" then !isEven
      else false
  else if bet.type = BetType.HIGH_LOW then
    if isZeroOrDoubleZero then false
    else if bet.label = some "1-18" then 1 ≤ resultVal && resultVal ≤ 18
    else if bet.label = some "19-36" then 19 ≤ resultVal && resultVal ≤ 36
    else false
  -- COLUMN & DOZEN BETS (2:1): lose if 0 or 00 appear
  else if bet.type = BetType.DOZEN then
    if isZeroOrDoubleZero then false
    else if bet.label = some "1st 12" then 1 ≤ resultVal && resultVal ≤ 12
    else if bet.label = some "2nd 12" then 13 ≤ resultVal && resultVal ≤ 24
    else if bet.label = some "3rd 12" then 25 ≤ resultVal && resultVal ≤ 36
    else false
  else if bet.type = BetType.COLUMN then
    if isZeroOrDoubleZero then false
    -- Use specific numbers if provided (preferred)
    else if bet.numbers.length > 0 then bet.numbers.contains resultVal
    -- Fallback to Modulo Logic if numbers are not pre-populated
    else if bet.label = some "2 to 1 (Bot)" then resultVal % 3 = 1
    else if bet.label = some "2 to 1 (Mid)" then resultVal % 3 = 2
    else if bet.label = some "2 to 1 (Top)" then
      resultVal ≠ 0 && resultVal ≠ 37 && resultVal % 3 = 0
    else false
  -- INSIDE BETS: win only if number is explicitly in the bet
  else bet.numbers.contains resultVal

/-- The `switch(bet.type)` payout-ratio table of `calculateDetailedOutcomes`. -/
def payoutMultiplier : BetType → Nat
  | .STRAIGHT => 35
  | .SPLIT => 17
  | .STREET => 11
  | .CORNER => 8
  | .BASKET => 6
  | .LINE => 5
  | .COLUMN => 2
  | .DOZEN => 2
  | .RED_BLACK => 1
  | .EVEN_ODD => 1
  | .HIGH_LOW => 1
  | _ => 1

/-- Detailed outcome for a single bet in a spin (`interface BetOutcome`). -/
structure BetOutcome where
  bet : PlacedBet
  won : Bool
  payout : Int
  net : Int
  deriving DecidableEq, Repr

/-- Return type of `calculateDetailedOutcomes`. -/
structure DetailedOutcomes where
  totalPayout : Int
  outcomes : List BetOutcome
  deriving DecidableEq, Repr

/-- Calculate detailed payout for a set of bets (`calculateDetailedOutcomes`).
Casino payout logic: return = stake (original) + winnings (stake * ratio). -/
def calculateDetailedOutcomes (bets : List PlacedBet) (result : SpinResult) :
    DetailedOutcomes :=
  bets.foldl
    (fun acc bet =>
      let win := isWin result.number bet
      let payout : Int :=
        if win then (bet.amount : Int) + (bet.amount : Int) * (payoutMultiplier bet.type : Int)
        else 0
      { totalPayout := acc.totalPayout + payout
        outcomes := acc.outcomes ++
          [{ bet := bet, won := win, payout := payout, net := payout - (bet.amount : Int) }] })
    { totalPayout := 0, outcomes := [] }

/-- Generate a spin on an American wheel from a raw draw
(`generateSpin`: `rawSpin === 37 ? '00' : rawSpin`, color from the table with
`|| 'green'` fallback). -/
def generateSpin (rawSpin : Nat) : SpinResult :=
  let spinNum : SpinNumber := if rawSpin = 37 then .zz else .num rawSpin
  { number := spinNum, color := (colorLookup spinNum).getD "green" }

/-- Node tags, from `types.ts` (`type ProgressionType`). -/
inductive ProgressionType where
  | start_immediately | wait_spins | wait_condition | reset
  | double | triple | add_unit | subtract_unit | same_bet | custom_bet
  | martingale | repeat_until
  deriving DecidableEq, Repr

/-- From `type MartingaleLimitType`. -/
inductive MartingaleLimitType where
  | profit_target | spin_count | until_bankrupt
  deriving DecidableEq, Repr

/-- From `type RepeatUntilType`. -/
inductive RepeatUntilType where
  | spins | wins | profit_target | loss_limit
  deriving DecidableEq, Repr

/-- The value of `repeatType.toUpperCase()` on the four union-type strings. -/
def RepeatUntilType.upper : RepeatUntilType → String
  | .spins => "SPINS"
  | .wins => "WINS"
  | .profit_target => "PROFIT_TARGET"
  | .loss_limit => "LOSS_LIMIT"

/-- The strategy decision tree (`interface StrategyNode`). A child reference is
either absent (`null`), the back-edge to the tree root (`Sum.inl ()`, the only
cycle the data model permits), or a plain subtree (`Sum.inr`). Visual-only
fields (`id`, `label`, `x`, `y`, `title`) are omitted: the engine never reads
them. -/
inductive StrategyNode where
  | mk
      (type : ProgressionType)
      (bets : Option (List PlacedBet))
      (value : Option Nat)
      (condition : Option String)
      (postWaitAction : Option ProgressionType)
      (martingaleLimitType : Option MartingaleLimitType)
      (martingaleLimitValue : Option Int)
      (repeatUntilType : Option RepeatUntilType)
      (repeatUntilValue : Option Int)
      (childWin : Option (Unit ⊕ StrategyNode))
      (childLoss : Option (Unit ⊕ StrategyNode))

namespace StrategyNode

def type : StrategyNode → ProgressionType
  | .mk t _ _ _ _ _ _ _ _ _ _ => t

def bets : StrategyNode → Option (List PlacedBet)
  | .mk _ b _ _ _ _ _ _ _ _ _ => b

def value : StrategyNode → Option Nat
  | .mk _ _ v _ _ _ _ _ _ _ _ => v

def condition : StrategyNode → Option String
  | .mk _ _ _ c _ _ _ _ _ _ _ => c

def postWaitAction : StrategyNode → Option ProgressionType
  | .mk _ _ _ _ p _ _ _ _ _ _ => p

def martingaleLimitType : StrategyNode → Option MartingaleLimitType
  | .mk _ _ _ _ _ mt _ _ _ _ _ => mt

def martingaleLimitValue : StrategyNode → Option Int
  | .mk _ _ _ _ _ _ mv _ _ _ _ => mv

def repeatUntilType : StrategyNode → Option RepeatUntilType
  | .mk _ _ _ _ _ _ _ rt _ _ _ => rt

def repeatUntilValue : StrategyNode → Option Int
  | .mk _ _ _ _ _ _ _ _ rv _ _ => rv

def childWin : StrategyNode → Option (Unit ⊕ StrategyNode)
  | .mk _ _ _ _ _ _ _ _ _ w _ => w

def childLoss : StrategyNode → Option (Unit ⊕ StrategyNode)
  | .mk _ _ _ _ _ _ _ _ _ _ l => l

end StrategyNode

/-- From `interface StrategyConfig`. -/
structure StrategyConfig where
  rootNode : StrategyNode
  stopLoss : Int
  takeProfit : Int

/-- From `interface SimConfig`. -/
structure SimConfig where
  maxSpins : Nat
  tableMin : Int
  tableMax : Int

/-- One ledger entry (`interface SimulationStep`). -/
structure SimulationStep where
  spinIndex : Nat
  result : SpinResult
  bets : List PlacedBet
  outcomes : List BetOutcome
  betTotal : Nat
  payout : Int
  net : Int
  bankroll : Int
  won : Bool
  actionType : String
  deriving DecidableEq, Repr

/-- Aggregate run statistics (`interface SimulationStats`); `roi` is exact
rational where the source computes a float. -/
structure SimulationStats where
  initialBankroll : Int
  finalBankroll : Int
  totalSpins : Nat
  wins : Nat
  losses : Nat
  maxDrawdown : Int
  maxUpside : Int
  longestWinStreak : Nat
  longestLossStreak : Nat
  roi : ℚ
  deriving DecidableEq, Repr

/-- The mutable locals of `runSimulation`, gathered into one machine state:
bankroll, ledger, spin counter, the stats counters, and the traversal cursor
(current node, active base bets, multiplier). -/
structure SimState where
  bankroll : Int
  steps : List SimulationStep
  spinsConsumed : Nat
  wins : Nat
  losses : Nat
  maxDrawdown : Int
  maxUpside : Int
  currentWinStreak : Nat
  currentLossStreak : Nat
  longestWinStreak : Nat
  longestLossStreak : Nat
  currentNode : StrategyNode
  currentBaseBets : List PlacedBet
  currentMultiplier : Nat

/-- The total `activeBets.reduce((sum, b) => sum + b.amount, 0)`. -/
def betSum (bets : List PlacedBet) : Nat :=
  bets.foldl (fun sum b => sum + b.amount) 0

/-- JavaScript truthiness of an optional number (`undefined` and `0` falsy). -/
def truthyNat : Option Nat → Bool
  | none => false
  | some v => v ≠ 0

/-- JavaScript truthiness of an optional string (`undefined` and `""` falsy). -/
def truthyStr : Option String → Bool
  | none => false
  | some s => s ≠ ""

/-- JavaScript `x || d` on an optional number (`0` falls through to `d`). -/
def orElseInt (v : Option Int) (d : Int) : Int :=
  match v with
  | none => d
  | some x => if x = 0 then d else x

/-- Helper to record a step atomically (`recordStep` in the source). Returns
the updated state and the source's boolean: `false` when a non-wait step cannot
afford its bet total (the spin counter is still incremented, as in the source,
and no entry is pushed). -/
def recordStep (initialBankroll : Int) (result : SpinResult)
    (activeBets : List PlacedBet) (actionType : String) (isWaitStep : Bool)
    (s : SimState) : SimState × Bool :=
  let spinsConsumed := s.spinsConsumed + 1
  -- 1. snapshot bets (the deep copy is the identity on immutable values)
  let betsSnapshot := activeBets
  -- 2. calculate financials
  let betTotal : Nat := betSum betsSnapshot
  if !isWaitStep && (betTotal : Int) > s.bankroll then
    ({ s with spinsConsumed := spinsConsumed }, false)
  else
    let d : DetailedOutcomes :=
      if isWaitStep then { totalPayout := 0, outcomes := [] }
      else calculateDetailedOutcomes betsSnapshot result
    let net : Int := d.totalPayout - (betTotal : Int)
    -- 3. update bankroll atomically
    let bankroll := s.bankroll + net
    -- 4. update stats (skipped for wait steps)
    let s1 :=
      if isWaitStep then s
      else
        let s1 :=
          if net > 0 then
            { s with wins := s.wins + 1, currentWinStreak := s.currentWinStreak + 1,
                     currentLossStreak := 0 }
          else if net < 0 then
            { s with losses := s.losses + 1, currentLossStreak := s.currentLossStreak + 1,
                     currentWinStreak := 0 }
          else
            -- push (net 0) breaks both streaks
            { s with currentLossStreak := 0, currentWinStreak := 0 }
        let s2 :=
          { s1 with longestWinStreak := max s1.longestWinStreak s1.currentWinStreak,
                    longestLossStreak := max s1.longestLossStreak s1.currentLossStreak }
        let totalNetChange := bankroll - initialBankroll
        { s2 with maxDrawdown := min s2.maxDrawdown totalNetChange,
                  maxUpside := max s2.maxUpside totalNetChange }
    -- 5. push log entry
    let entry : SimulationStep :=
      { spinIndex := spinsConsumed, result := result, bets := betsSnapshot,
        outcomes := d.outcomes, betTotal := betTotal, payout := d.totalPayout,
        net := net, bankroll := bankroll, won := net > 0, actionType := actionType }
    ({ s with bankroll := bankroll, spinsConsumed := spinsConsumed,
              steps := s.steps ++ [entry],
              wins := s1.wins, losses := s1.losses,
              maxDrawdown := s1.maxDrawdown, maxUpside := s1.maxUpside,
              currentWinStreak := s1.currentWinStreak,
              currentLossStreak := s1.currentLossStreak,
              longestWinStreak := s1.longestWinStreak,
              longestLossStreak := s1.longestLossStreak }, true)

/-- Draw the next spin: `generateSpin()` fed from the oracle at the current
spin counter (every draw in the source is immediately followed by exactly one
`recordStep`, so the counter indexes draws). -/
def drawAt (oracle : Nat → Nat) (s : SimState) : SpinResult :=
  generateSpin (oracle s.spinsConsumed)

/-- Scaling `Math.floor(b.amount * currentMultiplier)`; multiplier and amount are
integers, so the floor is exact. -/
def scaleBets (bets : List PlacedBet) (multiplier : Nat) : List PlacedBet :=
  bets.map (fun b => { b with amount := b.amount * multiplier })

/-- Scaling `Math.max(1, Math.floor(b.amount * scaleFactor))` with
`scaleFactor = tableMax / totalWager`, as exact rational floor division. -/
def scaleToTableMax (tableMax : Int) (totalWager : Nat) (bets : List PlacedBet) :
    List PlacedBet :=
  bets.map (fun b =>
    { b with amount := (max 1 (Int.fdiv ((b.amount : Int) * tableMax) (totalWager : Int))).toNat })

/-- The flag `steps[steps.length - 1].won` (the step just pushed). -/
def lastStepWon (s : SimState) : Bool :=
  match s.steps.getLast? with
  | some e => e.won
  | none => false

/-- The consumption of `n` no-wager wait spins
(`for (...) { generateSpin(); recordStep(res, [], 'WAITING', true); }`),
used for the pre-sim `wait_spins` phase and the `wait_spins` child case. -/
def waitSpinsPhase (oracle : Nat → Nat) (initialBankroll : Int) (n : Nat)
    (s : SimState) : SimState :=
  (List.range n).foldl
    (fun st _ => (recordStep initialBankroll (drawAt oracle st) [] "WAITING" true st).1) s

/-- The pre-sim `wait_condition` loop: spins are consumed (and recorded as wait
steps tagged `WAITING_FOR_<CONDITION>`) until the named color appears or the
hard safety cap is reached; the fuel starts at 200
(`while (!conditionMet && safety < 200)`). -/
def waitCondLoop (oracle : Nat → Nat) (initialBankroll : Int) (cond : String) :
    Nat → Bool → SimState → SimState
  | 0, _, s => s
  | fuel + 1, conditionMet, s =>
    if conditionMet then s
    else
      let res := drawAt oracle s
      let s := (recordStep initialBankroll res [] ("WAITING_FOR_" ++ cond.toUpper) true s).1
      let conditionMet :=
        (cond = "red" && res.color = "red") || (cond = "black" && res.color = "black")
      waitCondLoop oracle initialBankroll cond fuel conditionMet s

/-- The bounded martingale inner loop. The structural fuel is called with
`maxSpins + 1 - spinsConsumed`, which is never the binding constraint because
every iteration that recurses has consumed a spin and the loop guard requires
`spinsConsumed < maxSpins`. `stepCount` is `martingaleStepCount`. -/
def martingaleLoop (oracle : Nat → Nat) (initialBankroll : Int) (cfg : SimConfig)
    (limitType : MartingaleLimitType) (limitValue : Int) (seqStart : Int) :
    Nat → Nat → SimState → SimState
  | 0, _, s => s
  | fuel + 1, stepCount, s =>
    if !(decide (s.spinsConsumed < cfg.maxSpins) && decide (s.bankroll > 0)) then s
    else
      let activeBets := scaleBets s.currentBaseBets s.currentMultiplier
      -- check table max
      let totalWager := betSum activeBets
      if (totalWager : Int) > cfg.tableMax || (totalWager : Int) > s.bankroll then s
      else
        -- execute spin
        let result := drawAt oracle s
        let rs := recordStep initialBankroll result activeBets
          ("MARTINGALE_x" ++ toString s.currentMultiplier) false s
        let s' := rs.1
        if !rs.2 then s'
        else
          -- evaluate outcome
          let roundWin := lastStepWon s'
          let stepCount := stepCount + 1
          let currentMartingaleProfit := s'.bankroll - seqStart
          -- martingale progression logic: the pair is (martingaleActive, state)
          let prog : Bool × SimState :=
            match limitType with
            | .until_bankrupt =>
                if roundWin then (false, s')
                else (true, { s' with currentMultiplier := s'.currentMultiplier * 2 })
            | .profit_target =>
                if currentMartingaleProfit ≥ limitValue then (false, s')
                else if !roundWin then
                  (true, { s' with currentMultiplier := s'.currentMultiplier * 2 })
                else (true, { s' with currentMultiplier := 1 })
            | .spin_count =>
                if (stepCount : Int) ≥ limitValue then (false, s')
                else if !roundWin then
                  (true, { s' with currentMultiplier := s'.currentMultiplier * 2 })
                else (true, s')
          if prog.2.currentMultiplier > 10000 then prog.2  -- safety
          else if prog.1 then
            martingaleLoop oracle initialBankroll cfg limitType limitValue seqStart
              fuel stepCount prog.2
          else prog.2

/-- The bounded `repeat_until` inner loop; fuel as in `martingaleLoop`. -/
def repeatLoop (oracle : Nat → Nat) (initialBankroll : Int) (cfg : SimConfig)
    (repeatType : RepeatUntilType) (repeatValue : Int) (seqStart : Int) :
    Nat → Nat → Nat → SimState → SimState
  | 0, _, _, s => s
  | fuel + 1, loopSpins, loopWins, s =>
    if !(decide (s.spinsConsumed < cfg.maxSpins) && decide (s.bankroll > 0)) then s
    else
      let activeBets := scaleBets s.currentBaseBets s.currentMultiplier
      -- validate max bet / bankroll (proportional scale-down, not abandonment)
      let totalWager := betSum activeBets
      let activeBets :=
        if (totalWager : Int) > cfg.tableMax then scaleToTableMax cfg.tableMax totalWager activeBets
        else activeBets
      let totalWager := betSum activeBets
      if (totalWager : Int) > s.bankroll then s
      else
        -- execute spin
        let result := drawAt oracle s
        let s' := (recordStep initialBankroll result activeBets
          ("REPEAT_" ++ repeatType.upper) false s).1
        let loopSpins := loopSpins + 1
        let loopWins := if lastStepWon s' then loopWins + 1 else loopWins
        -- check exit condition
        let loopActive := true
        let loopActive := if repeatType = .spins ∧ (loopSpins : Int) ≥ repeatValue then false else loopActive
        let loopActive := if repeatType = .wins ∧ (loopWins : Int) ≥ repeatValue then false else loopActive
        let loopActive := if repeatType = .profit_target ∧ s'.bankroll - seqStart ≥ repeatValue then false else loopActive
        let loopActive := if repeatType = .loss_limit ∧ seqStart - s'.bankroll ≥ repeatValue then false else loopActive
        if loopActive then
          repeatLoop oracle initialBankroll cfg repeatType repeatValue seqStart
            fuel loopSpins loopWins s'
        else s'

/-- Resolve a child reference: `null` stays `none`; the root back-edge and a
plain subtree both give a node. -/
def resolveChild (root : StrategyNode) : Option (Unit ⊕ StrategyNode) → Option StrategyNode
  | none => none
  | some (.inl _) => some root
  | some (.inr n) => some n

/-- The shared cursor-transition logic after a node finishes: absent child
resets to the root (reloading the root's bets, multiplier 1); otherwise the
child becomes current, an explicit non-empty bet list on it replaces the base
bets and resets the multiplier, and the child's tag applies its modifier. The
`switch` in the standard single-spin path additionally handles a `wait_spins`
child (`withWaitCase = true`); the martingale and repeat-until paths do not. -/
def applyNodeTransition (oracle : Nat → Nat) (initialBankroll : Int)
    (root : StrategyNode) (withWaitCase : Bool)
    (next : Option (Unit ⊕ StrategyNode)) (s : SimState) : SimState :=
  match resolveChild root next with
  | none =>
      { s with currentBaseBets := root.bets.getD [], currentMultiplier := 1,
               currentNode := root }
  | some node =>
      let s := { s with currentNode := node }
      -- explicit bets on the new node override the base and reset the multiplier
      let s :=
        match node.bets with
        | some bs => if bs.length > 0 then
            { s with currentBaseBets := bs, currentMultiplier := 1 } else s
        | none => s
      -- apply node modifiers (`if(!currentNode.bets)`: only when `bets` is absent;
      -- an empty array is truthy in JavaScript, so it suppresses the modifier too)
      match node.type with
      | .double =>
          if node.bets = none then { s with currentMultiplier := s.currentMultiplier * 2 } else s
      | .triple =>
          if node.bets = none then { s with currentMultiplier := s.currentMultiplier * 3 } else s
      | .add_unit =>
          if node.bets = none then { s with currentMultiplier := s.currentMultiplier + 1 } else s
      | .subtract_unit =>
          if node.bets = none then { s with currentMultiplier := max 1 (s.currentMultiplier - 1) } else s
      | .reset =>
          { s with currentMultiplier := 1, currentBaseBets := root.bets.getD [],
                   currentNode := root }
      | .wait_spins =>
          if withWaitCase then
            let s :=
              match node.value with
              | some v => if v ≠ 0 then waitSpinsPhase oracle initialBankroll v s else s
              | none => s
            -- post-wait action, only when the node carries no (non-empty) bets
            match node.postWaitAction with
            | some a =>
                if node.bets = none ∨ (node.bets.getD []).length = 0 then
                  match a with
                  | .double => { s with currentMultiplier := s.currentMultiplier * 2 }
                  | .triple => { s with currentMultiplier := s.currentMultiplier * 3 }
                  | .add_unit => { s with currentMultiplier := s.currentMultiplier + 1 }
                  | .subtract_unit => { s with currentMultiplier := max 1 (s.currentMultiplier - 1) }
                  | .reset => { s with currentMultiplier := 1, currentBaseBets := root.bets.getD [] }
                  | _ => s
                else s
            | none => s
          else s
      | _ => s

/-- One iteration of the main simulation loop body (node dispatch). The `Bool`
is `true` when the body `break`s out of the main loop (a standard single spin
whose wager total, after table-max scaling, exceeds the bankroll). -/
def mainStep (oracle : Nat → Nat) (initialBankroll : Int) (strategy : StrategyConfig)
    (cfg : SimConfig) (s : SimState) : SimState × Bool :=
  let root := strategy.rootNode
  -- MARTINGALE LOGIC
  if s.currentNode.type = .martingale then
    let limitType := s.currentNode.martingaleLimitType.getD .until_bankrupt
    let limitValue := orElseInt s.currentNode.martingaleLimitValue 0
    let sequenceStartBankroll := s.bankroll
    let s' := martingaleLoop oracle initialBankroll cfg limitType limitValue
      sequenceStartBankroll (cfg.maxSpins + 1 - s.spinsConsumed) 0 s
    let sequenceWon := s'.bankroll ≥ sequenceStartBankroll
    let next := if sequenceWon then s'.currentNode.childWin else s'.currentNode.childLoss
    (applyNodeTransition oracle initialBankroll root false next s', false)
  -- REPEAT UNTIL LOGIC
  else if s.currentNode.type = .repeat_until then
    let repeatType := s.currentNode.repeatUntilType.getD .spins
    let repeatValue := orElseInt s.currentNode.repeatUntilValue 1
    let seqStartBankroll := s.bankroll
    let s' := repeatLoop oracle initialBankroll cfg repeatType repeatValue
      seqStartBankroll (cfg.maxSpins + 1 - s.spinsConsumed) 0 0 s
    let next := s'.currentNode.childWin  -- default flow out
    (applyNodeTransition oracle initialBankroll root false next s', false)
  -- STANDARD SINGLE SPIN LOGIC
  else
    let activeBets := scaleBets s.currentBaseBets s.currentMultiplier
    let totalWager := betSum activeBets
    -- scaling if over table max
    let activeBets :=
      if (totalWager : Int) > cfg.tableMax then scaleToTableMax cfg.tableMax totalWager activeBets
      else activeBets
    let totalWager := betSum activeBets
    if (totalWager : Int) > s.bankroll then (s, true)  -- game over
    else
      -- execute spin
      let result := drawAt oracle s
      let tag :=
        if activeBets.length > 0 then (if s.steps.length = 0 then "START" else "BET")
        else "NO_BET"
      let s' := (recordStep initialBankroll result activeBets tag false s).1
      let roundWin := lastStepWon s'
      -- determine next node
      let next := if roundWin then s'.currentNode.childWin else s'.currentNode.childLoss
      (applyNodeTransition oracle initialBankroll root true next s', false)

/-- The main `while (spinsConsumed < config.maxSpins)` loop, on explicit fuel.
The `Bool` is `true` when the loop exited by its own conditions (guard failure
or a body `break`), `false` when the fuel ran out first. -/
def mainLoop (oracle : Nat → Nat) (initialBankroll : Int) (strategy : StrategyConfig)
    (cfg : SimConfig) : Nat → SimState → SimState × Bool
  | 0, s => (s, false)
  | fuel + 1, s =>
    if !(decide (s.spinsConsumed < cfg.maxSpins)) then (s, true)
    else if s.bankroll ≤ strategy.stopLoss then (s, true)
    else if strategy.takeProfit > 0 ∧ s.bankroll ≥ strategy.takeProfit then (s, true)
    else if s.bankroll ≤ 0 then (s, true)
    else
      let p := mainStep oracle initialBankroll strategy cfg s
      if p.2 then (p.1, true)
      else mainLoop oracle initialBankroll strategy cfg fuel p.1

/-- The aggregate statistics built at loop termination. -/
def mkStats (initialBankroll : Int) (s : SimState) : SimulationStats :=
  { initialBankroll := initialBankroll
    finalBankroll := s.bankroll
    totalSpins := s.steps.length
    wins := s.wins
    losses := s.losses
    maxDrawdown := s.maxDrawdown
    maxUpside := s.maxUpside
    longestWinStreak := s.longestWinStreak
    longestLossStreak := s.longestLossStreak
    roi := if initialBankroll > 0 then
        ((s.bankroll - initialBankroll : Int) : ℚ) / (initialBankroll : ℚ) * 100
      else 0 }

/-- Result of a run: the ledger and stats the source returns, plus the
`finished` flag (main loop exited by its own conditions rather than fuel) and
the final internal state, both exposed for specification purposes. -/
structure RunResult where
  steps : List SimulationStep
  stats : SimulationStats
  finished : Bool
  final : SimState

/-- The initial machine state of a run. -/
def initState (initialBankroll : Int) (root : StrategyNode) : SimState :=
  { bankroll := initialBankroll, steps := [], spinsConsumed := 0,
    wins := 0, losses := 0, maxDrawdown := 0, maxUpside := 0,
    currentWinStreak := 0, currentLossStreak := 0,
    longestWinStreak := 0, longestLossStreak := 0,
    currentNode := root, currentBaseBets := root.bets.getD [],
    currentMultiplier := 1 }

/-- CORE SIMULATION RUNNER (`runSimulation`): pre-sim wait phases, then the
main loop, then the stats block. -/
def runSimulation (fuel : Nat) (oracle : Nat → Nat) (initialBankroll : Int)
    (strategy : StrategyConfig) (config : SimConfig) : RunResult :=
  let rootNode := strategy.rootNode
  let s0 := initState initialBankroll rootNode
  -- PRE-SIM WAIT PHASES
  let s1 :=
    if rootNode.type = .wait_spins ∧ truthyNat rootNode.value then
      waitSpinsPhase oracle initialBankroll (rootNode.value.getD 0) s0
    else if rootNode.type = .wait_condition ∧ truthyStr rootNode.condition then
      waitCondLoop oracle initialBankroll (rootNode.condition.getD "") 200 false s0
    else s0
  -- MAIN SIMULATION LOOP
  let p := mainLoop oracle initialBankroll strategy config fuel s1
  { steps := p.1.steps, stats := mkStats initialBankroll p.1,
    finished := p.2, final := p.1 }

/-! ## Ledger classification and the two statistics folds -/

/-- Wait-step ledger tags: `'WAITING'` (wait_spins phases) and
`'WAITING_FOR_<CONDITION>'` (wait_condition phase). Stated on the underlying
character lists so that facts about tags built by concatenation reduce. -/
def isWaitTag (t : String) : Bool :=
  t.data = "WAITING".data || "WAITING_FOR_".data.isPrefixOf t.data

/-- Tags of the spins drawn by the standard single-spin path of the main loop. -/
def isMainTag (t : String) : Bool :=
  t.data = "START".data || t.data = "BET".data || t.data = "NO_BET".data

/-- Tags of the spins drawn inside the martingale inner loop
(`MARTINGALE_x<multiplier>`). -/
def isMartTag (t : String) : Bool :=
  "MARTINGALE_x".data.isPrefixOf t.data

/-- Tags of the spins drawn inside the repeat-until inner loop
(`REPEAT_<TYPE>`). -/
def isRepTag (t : String) : Bool :=
  "REPEAT_".data.isPrefixOf t.data

/-- Accumulator common to the two statistics folds. -/
structure FoldAcc where
  wins : Nat
  losses : Nat
  currentWinStreak : Nat
  currentLossStreak : Nat
  longestWinStreak : Nat
  longestLossStreak : Nat
  maxDrawdown : Int
  maxUpside : Int
  bankroll : Int
  deriving DecidableEq, Repr

/-- Initial accumulator (all counters zero, bankroll at the initial bankroll). -/
def FoldAcc.start (initial : Int) : FoldAcc :=
  { wins := 0, losses := 0, currentWinStreak := 0, currentLossStreak := 0,
    longestWinStreak := 0, longestLossStreak := 0,
    maxDrawdown := 0, maxUpside := 0, bankroll := initial }

/-- One step of the playback fold of the UI layer (`displayedStats` in
`App.tsx`): an entry counts as a win iff its `won` flag is set, and as a loss
otherwise — including entries with `net == 0` and wait entries. -/
def displayedStatsUpdate (initial : Int) (a : FoldAcc) (step : SimulationStep) : FoldAcc :=
  let a :=
    if step.won then
      { a with wins := a.wins + 1, currentWinStreak := a.currentWinStreak + 1,
               currentLossStreak := 0 }
    else
      { a with losses := a.losses + 1, currentLossStreak := a.currentLossStreak + 1,
               currentWinStreak := 0 }
  let a := { a with longestWinStreak := max a.longestWinStreak a.currentWinStreak,
                    longestLossStreak := max a.longestLossStreak a.currentLossStreak }
  let bankroll := step.bankroll
  let diff := bankroll - initial
  { a with bankroll := bankroll,
           maxDrawdown := min a.maxDrawdown diff,
           maxUpside := max a.maxUpside diff }

/-- The playback fold over a ledger prefix (`displayedSteps.forEach` in
`displayedStats`). -/
def displayedStatsFold (initial : Int) (steps : List SimulationStep) : FoldAcc :=
  steps.foldl (displayedStatsUpdate initial) (FoldAcc.start initial)

/-- One step of the engine's statistics accumulation, as performed by
`recordStep` (step 4 of the source): wait entries are exempt, an entry with
`net > 0` is a win, `net < 0` a loss, and `net == 0` counts as neither and
resets both streaks. -/
def engineStatsUpdate (initial : Int) (a : FoldAcc) (step : SimulationStep) : FoldAcc :=
  if isWaitTag step.actionType then { a with bankroll := step.bankroll }
  else
    let a :=
      if step.net > 0 then
        { a with wins := a.wins + 1, currentWinStreak := a.currentWinStreak + 1,
                 currentLossStreak := 0 }
      else if step.net < 0 then
        { a with losses := a.losses + 1, currentLossStreak := a.currentLossStreak + 1,
                 currentWinStreak := 0 }
      else
        { a with currentWinStreak := 0, currentLossStreak := 0 }
    let a := { a with longestWinStreak := max a.longestWinStreak a.currentWinStreak,
                      longestLossStreak := max a.longestLossStreak a.currentLossStreak }
    let diff := step.bankroll - initial
    { a with bankroll := step.bankroll,
             maxDrawdown := min a.maxDrawdown diff,
             maxUpside := max a.maxUpside diff }

/-- The engine's statistics recomputed as a pure fold over a ledger prefix. -/
def engineStatsFold (initial : Int) (steps : List SimulationStep) : FoldAcc :=
  steps.foldl (engineStatsUpdate initial) (FoldAcc.start initial)

/-! ## Concrete inputs used by the claims -/

/-- A $5 STRAIGHT wager on number 17. -/
def straightBet17 : PlacedBet :=
  { type := .STRAIGHT, numbers := [17], amount := 5, label := none }

/-! ## C1: exact payout resolution -/

/-- Claim C1. For every placed wager and every spin outcome the resolver returns,
on a win, a gross payout of `stake + stake * ratio` with the fixed integer
ratio table (STRAIGHT 35, SPLIT 17, STREET 11, CORNER 8, BASKET 6, LINE 5,
COLUMN 2, DOZEN 2, RED_BLACK/EVEN_ODD/HIGH_LOW 1) and a net of `stake * ratio`,
and on a loss a payout of `0` with net `-stake`, in exact integer arithmetic;
in particular a $5 STRAIGHT wager on 17 pays out 180 (net +175) when 17 is
spun and nets -5 on a miss. -/
theorem resolver_pays_stake_plus_ratio (bet : PlacedBet) (r : SpinResult) :
    (calculateDetailedOutcomes [bet] r).outcomes =
      [{ bet := bet
         won := isWin r.number bet
         payout := if isWin r.number bet then
             (bet.amount : Int) + (bet.amount : Int) * (payoutMultiplier bet.type : Int)
           else 0
         net := if isWin r.number bet then
             (bet.amount : Int) * (payoutMultiplier bet.type : Int)
           else -(bet.amount : Int) }] ∧
    (calculateDetailedOutcomes [bet] r).totalPayout =
      (if isWin r.number bet then
         (bet.amount : Int) + (bet.amount : Int) * (payoutMultiplier bet.type : Int)
       else 0) ∧
    payoutMultiplier .STRAIGHT = 35 ∧ payoutMultiplier .SPLIT = 17 ∧
    payoutMultiplier .STREET = 11 ∧ payoutMultiplier .CORNER = 8 ∧
    payoutMultiplier .BASKET = 6 ∧ payoutMultiplier .LINE = 5 ∧
    payoutMultiplier .COLUMN = 2 ∧ payoutMultiplier .DOZEN = 2 ∧
    payoutMultiplier .RED_BLACK = 1 ∧ payoutMultiplier .EVEN_ODD = 1 ∧
    payoutMultiplier .HIGH_LOW = 1 ∧
    (calculateDetailedOutcomes [straightBet17] (generateSpin 17)).totalPayout = 180 ∧
    ((calculateDetailedOutcomes [straightBet17] (generateSpin 17)).outcomes.map
        BetOutcome.net) = [175] ∧
    ((calculateDetailedOutcomes [straightBet17] (generateSpin 5)).outcomes.map
        BetOutcome.net) = [-5] := by
  refine ⟨?_, ?_, rfl, rfl, rfl, rfl, rfl, rfl, rfl, rfl, rfl, rfl, rfl,
    by decide, by decide, by decide⟩
  · cases h : isWin r.number bet <;>
      simp [calculateDetailedOutcomes, h]
  · cases h : isWin r.number bet <;> simp [calculateDetailedOutcomes, h]

/-! ## C7: DOZEN and COLUMN resolution -/

/-- A DOZEN wager whose explicit numbers set is non-empty and contains 25 but
whose label names the first dozen. -/
def dozenBetMismatch : PlacedBet :=
  { type := .DOZEN, numbers := [25], amount := 5, label := some "1st 12" }

/-- Claim C7 counterexample. The claim says a DOZEN wager with a non-empty
explicit numbers set wins exactly when the outcome is a member of that set
(here: outcome 25, set `[25]`, outcome neither 0 nor double-zero). The code
resolves DOZEN purely by its label's range (`'1st 12'` → 1–12) and ignores the
numbers set, so this wager loses. -/
theorem dozen_membership_claim_false :
    dozenBetMismatch.numbers.contains 25 = true ∧
    getResultValue (.num 25) ≠ 0 ∧ getResultValue (.num 25) ≠ 37 ∧
    isWin (.num 25) dozenBetMismatch = false := by decide

/-- Claim C7, amended. DOZEN and COLUMN lose unconditionally on 0/double-zero.
Otherwise: a DOZEN wager is resolved purely by its label's dozen range — its
explicit numbers set is ignored entirely — while a COLUMN wager with a
non-empty numbers set wins exactly on membership of the outcome's normalized
value, and a COLUMN wager with an empty numbers set falls back to the
label-selected modulo-3 row rule. -/
theorem dozen_column_resolution (r : SpinNumber) (nums nums' : List Nat)
    (amt : Nat) (lbl : Option String) :
    (isWin r { type := .DOZEN, numbers := nums, amount := amt, label := lbl } =
       isWin r { type := .DOZEN, numbers := nums', amount := amt, label := lbl }) ∧
    (getResultValue r = 0 ∨ getResultValue r = 37 →
       isWin r { type := .DOZEN, numbers := nums, amount := amt, label := lbl } = false ∧
       isWin r { type := .COLUMN, numbers := nums, amount := amt, label := lbl } = false) ∧
    (getResultValue r ≠ 0 → getResultValue r ≠ 37 →
       (isWin r { type := .DOZEN, numbers := nums, amount := amt, label := lbl } = true ↔
          (lbl = some "1st 12" ∧ 1 ≤ getResultValue r ∧ getResultValue r ≤ 12) ∨
          (lbl = some "2nd 12" ∧ 13 ≤ getResultValue r ∧ getResultValue r ≤ 24) ∨
          (lbl = some "3rd 12" ∧ 25 ≤ getResultValue r ∧ getResultValue r ≤ 36))) ∧
    (getResultValue r ≠ 0 → getResultValue r ≠ 37 → nums ≠ [] →
       (isWin r { type := .COLUMN, numbers := nums, amount := amt, label := lbl } = true ↔
          getResultValue r ∈ nums)) ∧
    (getResultValue r ≠ 0 → getResultValue r ≠ 37 →
       (isWin r { type := .COLUMN, numbers := [], amount := amt, label := lbl } = true ↔
          (lbl = some "2 to 1 (Bot)" ∧ getResultValue r % 3 = 1) ∨
          (lbl = some "2 to 1 (Mid)" ∧ getResultValue r % 3 = 2) ∨
          (lbl = some "2 to 1 (Top)" ∧ getResultValue r % 3 = 0))) := by
  refine ⟨rfl, ?_, ?_, ?_, ?_⟩
  · rintro (h | h) <;> simp [isWin, h]
  · intro h0 h37
    by_cases h1 : lbl = some "1st 12"
    · simp [isWin, h0, h37, h1]
    · by_cases h2 : lbl = some "2nd 12"
      · simp [isWin, h0, h37, h1, h2]
      · by_cases h3 : lbl = some "3rd 12"
        · simp [isWin, h0, h37, h1, h2, h3]
        · simp [isWin, h0, h37, h1, h2, h3]
  · intro h0 h37 hne
    have hlen : 0 < nums.length := List.length_pos.mpr hne
    simp [isWin, h0, h37, hlen]
  · intro h0 h37
    by_cases h1 : lbl = some "2 to 1 (Bot)"
    · simp [isWin, h0, h37, h1]
    · by_cases h2 : lbl = some "2 to 1 (Mid)"
      · simp [isWin, h0, h37, h1, h2]
      · by_cases h3 : lbl = some "2 to 1 (Top)"
        · simp [isWin, h0, h37, h1, h2, h3]
        · simp [isWin, h0, h37, h1, h2, h3]

/-- Witness for the amended C7 theorem: a COLUMN wager covering `[25]` on a
spin of 25 resolves by membership. -/
theorem dozen_column_resolution_witness :
    isWin (.num 25) { type := .COLUMN, numbers := [25], amount := 5, label := none } = true ↔
      getResultValue (.num 25) ∈ [25] :=
  (dozen_column_resolution (.num 25) [25] [1] 5 none).2.2.2.1
    (by decide) (by decide) (by decide)

/-! ## C2: the ledger bankroll-chaining invariant -/

/-- The bankroll of each entry of the ledger continues from the bankroll of
the previous entry (or from `prev` for the first one) by exactly the entry's
net. -/
def chainedFrom (prev : Int) : List SimulationStep → Prop
  | [] => True
  | e :: rest => e.bankroll = prev + e.net ∧ chainedFrom e.bankroll rest

/-- The bankroll after the last ledger entry (`prev` when the ledger is
empty). -/
def lastBankroll (prev : Int) (steps : List SimulationStep) : Int :=
  match steps.getLast? with
  | some e => e.bankroll
  | none => prev

/-- The simulation-state invariant behind C2: the ledger chains from the
initial bankroll and the running bankroll is the last recorded one. -/
def BankrollInv (initialBankroll : Int) (s : SimState) : Prop :=
  chainedFrom initialBankroll s.steps ∧
    s.bankroll = lastBankroll initialBankroll s.steps

theorem lastBankroll_append (prev : Int) (steps : List SimulationStep)
    (e : SimulationStep) : lastBankroll prev (steps ++ [e]) = e.bankroll := by
  simp [lastBankroll]

theorem lastBankroll_cons (prev : Int) (x : SimulationStep)
    (xs : List SimulationStep) :
    lastBankroll prev (x :: xs) = lastBankroll x.bankroll xs := by
  cases xs with
  | nil => simp [lastBankroll]
  | cons y ys =>
      simp only [lastBankroll, List.getLast?_cons_cons]
      cases hy : (y :: ys).getLast? with
      | none => exact absurd (List.getLast?_eq_none_iff.mp hy) (List.cons_ne_nil y ys)
      | some e => simp [hy]

theorem chainedFrom_append (prev : Int) (steps : List SimulationStep)
    (e : SimulationStep) :
    chainedFrom prev (steps ++ [e]) ↔
      chainedFrom prev steps ∧ e.bankroll = lastBankroll prev steps + e.net := by
  induction steps generalizing prev with
  | nil => simp [chainedFrom, lastBankroll]
  | cons x xs ih =>
      have h1 : chainedFrom prev ((x :: xs) ++ [e]) =
          (x.bankroll = prev + x.net ∧ chainedFrom x.bankroll (xs ++ [e])) := rfl
      have h2 : chainedFrom prev (x :: xs) =
          (x.bankroll = prev + x.net ∧ chainedFrom x.bankroll xs) := rfl
      rw [h1, h2, ih, lastBankroll_cons, and_assoc]

/-- The helper `recordStep` leaves the traversal cursor untouched and increments the spin
counter by exactly one in both of its branches. -/
theorem recordStep_cursor (initialBankroll : Int) (result : SpinResult)
    (activeBets : List PlacedBet) (actionType : String) (isWaitStep : Bool)
    (s : SimState) :
    (recordStep initialBankroll result activeBets actionType isWaitStep s).1.spinsConsumed
        = s.spinsConsumed + 1 ∧
    (recordStep initialBankroll result activeBets actionType isWaitStep s).1.currentNode
        = s.currentNode ∧
    (recordStep initialBankroll result activeBets actionType isWaitStep s).1.currentBaseBets
        = s.currentBaseBets ∧
    (recordStep initialBankroll result activeBets actionType isWaitStep s).1.currentMultiplier
        = s.currentMultiplier := by
  unfold recordStep
  by_cases hfail : (!isWaitStep && decide ((betSum activeBets : Int) > s.bankroll)) = true
  · rw [if_pos hfail]
    exact ⟨rfl, rfl, rfl, rfl⟩
  · rw [if_neg hfail]
    exact ⟨rfl, rfl, rfl, rfl⟩

/-- Every ledger entry present after `recordStep` was either already present,
or is the newly pushed entry: tagged with the given action tag, indexed by the
incremented spin counter, and whose bankroll minus net is the bankroll the
state had when the spin was drawn. -/
theorem recordStep_steps_cases (initialBankroll : Int) (result : SpinResult)
    (activeBets : List PlacedBet) (actionType : String) (isWaitStep : Bool)
    (s : SimState) :
    ∀ e ∈ (recordStep initialBankroll result activeBets actionType isWaitStep s).1.steps,
      e ∈ s.steps ∨
        (e.actionType = actionType ∧ e.spinIndex = s.spinsConsumed + 1 ∧
          e.bankroll - e.net = s.bankroll) := by
  unfold recordStep
  by_cases hfail : (!isWaitStep && decide ((betSum activeBets : Int) > s.bankroll)) = true
  · rw [if_pos hfail]
    intro e he
    exact .inl he
  · rw [if_neg hfail]
    intro e he
    rcases List.mem_append.mp he with h | h
    · exact .inl h
    · rcases List.mem_singleton.mp h with rfl
      exact .inr ⟨rfl, rfl, Int.add_sub_cancel ..⟩

theorem recordStep_bankrollInv (initialBankroll : Int) (result : SpinResult)
    (activeBets : List PlacedBet) (actionType : String) (isWaitStep : Bool)
    (s : SimState) (h : BankrollInv initialBankroll s) :
    BankrollInv initialBankroll
      (recordStep initialBankroll result activeBets actionType isWaitStep s).1 := by
  obtain ⟨hc, hb⟩ := h
  unfold recordStep
  by_cases hfail : (!isWaitStep && decide ((betSum activeBets : Int) > s.bankroll)) = true
  · rw [if_pos hfail]
    exact ⟨hc, hb⟩
  · rw [if_neg hfail]
    refine ⟨?_, ?_⟩
    · show chainedFrom initialBankroll (s.steps ++ [_])
      rw [chainedFrom_append]
      refine ⟨hc, ?_⟩
      show s.bankroll + _ = lastBankroll initialBankroll s.steps + _
      rw [← hb]
    · show s.bankroll + _ = lastBankroll initialBankroll (s.steps ++ [_])
      rw [lastBankroll_append]

/-- Generic preservation of a state predicate along a left fold. -/
theorem foldl_preserves {α : Type} {P : SimState → Prop} {f : SimState → α → SimState}
    (hf : ∀ s x, P s → P (f s x)) :
    ∀ (l : List α) (s : SimState), P s → P (l.foldl f s)
  | [], _, h => h
  | x :: xs, s, h => foldl_preserves hf xs (f s x) (hf s x h)

theorem waitSpinsPhase_bankrollInv (oracle : Nat → Nat) (init : Int) (n : Nat)
    (s : SimState) (h : BankrollInv init s) :
    BankrollInv init (waitSpinsPhase oracle init n s) :=
  foldl_preserves (fun s _ hs => recordStep_bankrollInv init (drawAt oracle s) [] "WAITING" true s hs)
    (List.range n) s h

theorem waitCondLoop_bankrollInv (oracle : Nat → Nat) (init : Int) (cond : String) :
    ∀ (fuel : Nat) (cm : Bool) (s : SimState), BankrollInv init s →
      BankrollInv init (waitCondLoop oracle init cond fuel cm s)
  | 0, _, _, h => h
  | fuel + 1, cm, s, h => by
      unfold waitCondLoop
      split
      · exact h
      · exact waitCondLoop_bankrollInv oracle init cond fuel _ _
          (recordStep_bankrollInv init (drawAt oracle s) []
            ("WAITING_FOR_" ++ cond.toUpper) true s h)

theorem martingaleLoop_bankrollInv (oracle : Nat → Nat) (init : Int) (cfg : SimConfig)
    (lt : MartingaleLimitType) (lv : Int) (seqStart : Int) :
    ∀ (fuel stepCount : Nat) (s : SimState), BankrollInv init s →
      BankrollInv init (martingaleLoop oracle init cfg lt lv seqStart fuel stepCount s)
  | 0, _, _, h => h
  | fuel + 1, stepCount, s, h => by
      unfold martingaleLoop
      split
      · exact h
      · have h1 : BankrollInv init (recordStep init (drawAt oracle s)
            (scaleBets s.currentBaseBets s.currentMultiplier)
            ("MARTINGALE_x" ++ toString s.currentMultiplier) false s).1 :=
          recordStep_bankrollInv _ _ _ _ _ _ h
        cases lt <;> (dsimp only; repeat' split) <;>
          first
          | exact h
          | exact h1
          | exact martingaleLoop_bankrollInv oracle init cfg _ lv seqStart fuel _ _ h1

theorem repeatLoop_bankrollInv (oracle : Nat → Nat) (init : Int) (cfg : SimConfig)
    (rt : RepeatUntilType) (rv : Int) (seqStart : Int) :
    ∀ (fuel loopSpins loopWins : Nat) (s : SimState), BankrollInv init s →
      BankrollInv init (repeatLoop oracle init cfg rt rv seqStart fuel loopSpins loopWins s)
  | 0, _, _, _, h => h
  | fuel + 1, loopSpins, loopWins, s, h => by
      unfold repeatLoop
      have h1 : ∀ ab : List PlacedBet, BankrollInv init
          (recordStep init (drawAt oracle s) ab ("REPEAT_" ++ rt.upper) false s).1 :=
        fun ab => recordStep_bankrollInv _ _ _ _ _ _ h
      dsimp only
      (repeat' (split <;> (try dsimp only))) <;>
        first
        | exact h
        | exact h1 _
        | exact repeatLoop_bankrollInv oracle init cfg rt rv seqStart fuel _ _ _ (h1 _)

theorem applyNodeTransition_bankrollInv (oracle : Nat → Nat) (init : Int)
    (root : StrategyNode) (wwc : Bool) (next : Option (Unit ⊕ StrategyNode))
    (s : SimState) (h : BankrollInv init s) :
    BankrollInv init (applyNodeTransition oracle init root wwc next s) := by
  unfold applyNodeTransition
  (repeat' split) <;>
    first
    | exact h
    | exact waitSpinsPhase_bankrollInv oracle init _ _ h

theorem mainStep_bankrollInv (oracle : Nat → Nat) (init : Int)
    (strategy : StrategyConfig) (cfg : SimConfig) (s : SimState)
    (h : BankrollInv init s) :
    BankrollInv init (mainStep oracle init strategy cfg s).1 := by
  unfold mainStep
  dsimp only
  (repeat' (split <;> (try dsimp only))) <;>
    first
    | exact h
    | exact applyNodeTransition_bankrollInv _ _ _ _ _ _
        (martingaleLoop_bankrollInv _ _ _ _ _ _ _ _ _ h)
    | exact applyNodeTransition_bankrollInv _ _ _ _ _ _
        (repeatLoop_bankrollInv _ _ _ _ _ _ _ _ _ _ h)
    | exact applyNodeTransition_bankrollInv _ _ _ _ _ _
        (recordStep_bankrollInv _ _ _ _ _ _ h)

theorem mainLoop_bankrollInv (oracle : Nat → Nat) (init : Int)
    (strategy : StrategyConfig) (cfg : SimConfig) :
    ∀ (fuel : Nat) (s : SimState), BankrollInv init s →
      BankrollInv init (mainLoop oracle init strategy cfg fuel s).1
  | 0, _, h => h
  | fuel + 1, s, h => by
      unfold mainLoop
      dsimp only
      (repeat' (split <;> (try dsimp only))) <;>
        first
        | exact h
        | exact mainStep_bankrollInv oracle init strategy cfg s h
        | exact mainLoop_bankrollInv oracle init strategy cfg fuel _
            (mainStep_bankrollInv oracle init strategy cfg s h)

theorem initState_bankrollInv (init : Int) (root : StrategyNode) :
    BankrollInv init (initState init root) :=
  ⟨trivial, rfl⟩

theorem runSimulation_bankrollInv (fuel : Nat) (oracle : Nat → Nat) (init : Int)
    (strategy : StrategyConfig) (cfg : SimConfig) :
    BankrollInv init (runSimulation fuel oracle init strategy cfg).final := by
  unfold runSimulation
  apply mainLoop_bankrollInv
  split
  · exact waitSpinsPhase_bankrollInv _ _ _ _ (initState_bankrollInv init _)
  · split
    · exact waitCondLoop_bankrollInv _ _ _ _ _ _ (initState_bankrollInv init _)
    · exact initState_bankrollInv init _

theorem chainedFrom_index (prev : Int) (steps : List SimulationStep)
    (d : SimulationStep) (h : chainedFrom prev steps) :
    ∀ i, i < steps.length →
      (steps.getD i d).bankroll =
        (if i = 0 then prev else (steps.getD (i - 1) d).bankroll) +
          (steps.getD i d).net := by
  induction steps generalizing prev with
  | nil =>
      intro i hi
      simp at hi
  | cons x xs ih =>
      obtain ⟨hx, hxs⟩ := h
      intro i hi
      cases i with
      | zero => simpa using hx
      | succ j =>
          have hj := ih x.bankroll hxs j (by simpa using hi)
          rw [if_neg (Nat.succ_ne_zero j)]
          simp only [List.getD_cons_succ, Nat.add_sub_cancel]
          cases j with
          | zero => simpa using hj
          | succ k => simpa [List.getD_cons_succ] using hj

/-- Claim C2. For every run produced by `runSimulation` and every index `i` into
the returned ledger, the `i`-th entry's bankroll equals the previous entry's
bankroll (the initial bankroll when `i = 0`) plus the `i`-th entry's net —
betting spins and wait spins alike. -/
theorem ledger_bankroll_chains (fuel : Nat) (oracle : Nat → Nat)
    (initialBankroll : Int) (strategy : StrategyConfig) (config : SimConfig)
    (d : SimulationStep) (i : Nat)
    (hi : i < (runSimulation fuel oracle initialBankroll strategy config).steps.length) :
    (((runSimulation fuel oracle initialBankroll strategy config).steps.getD i d).bankroll =
      (if i = 0 then initialBankroll
       else ((runSimulation fuel oracle initialBankroll strategy config).steps.getD (i - 1) d).bankroll) +
        ((runSimulation fuel oracle initialBankroll strategy config).steps.getD i d).net) := by
  have hinv := runSimulation_bankrollInv fuel oracle initialBankroll strategy config
  have hsteps : (runSimulation fuel oracle initialBankroll strategy config).steps =
      (runSimulation fuel oracle initialBankroll strategy config).final.steps := by
    unfold runSimulation
    rfl
  rw [hsteps] at hi ⊢
  exact chainedFrom_index initialBankroll _ d hinv.1 i hi

/-- A placeholder ledger entry used as the default of `List.getD`. -/
def dummyStep : SimulationStep :=
  { spinIndex := 0, result := { number := .num 0, color := "green" }, bets := [],
    outcomes := [], betTotal := 0, payout := 0, net := 0, bankroll := 0,
    won := false, actionType := "" }

/-- A plain betting root: a single $5 straight wager, no children. -/
def demoRoot : StrategyNode :=
  .mk .start_immediately (some [straightBet17]) none none none none none none none none none

def demoStrategy : StrategyConfig :=
  { rootNode := demoRoot, stopLoss := 0, takeProfit := 0 }

def demoConfig : SimConfig := { maxSpins := 2, tableMin := 1, tableMax := 500 }

/-- Witness for C2 at a concrete two-spin run, index 0. -/
theorem ledger_bankroll_chains_witness :
    0 < (runSimulation 5 (fun _ => 17) 100 demoStrategy demoConfig).steps.length ∧
    ((runSimulation 5 (fun _ => 17) 100 demoStrategy demoConfig).steps.getD 0 dummyStep).bankroll =
      (if 0 = 0 then (100 : Int)
       else ((runSimulation 5 (fun _ => 17) 100 demoStrategy demoConfig).steps.getD
          (0 - 1) dummyStep).bankroll) +
        ((runSimulation 5 (fun _ => 17) 100 demoStrategy demoConfig).steps.getD 0 dummyStep).net :=
  ⟨by decide, ledger_bankroll_chains 5 (fun _ => 17) 100 demoStrategy demoConfig dummyStep 0 (by decide)⟩

/-! ## C6: degenerate run limits -/

/-- When the spin budget is already exhausted or the bankroll is already at or
below the stop-loss, the main loop exits without touching the state. -/
theorem mainLoop_immediate (oracle : Nat → Nat) (init : Int)
    (strategy : StrategyConfig) (cfg : SimConfig) (fuel : Nat) (s : SimState)
    (hhalt : cfg.maxSpins ≤ s.spinsConsumed ∨ s.bankroll ≤ strategy.stopLoss) :
    (mainLoop oracle init strategy cfg fuel s).1 = s := by
  cases fuel with
  | zero => rfl
  | succ f =>
      unfold mainLoop
      by_cases h1 : (!(decide (s.spinsConsumed < cfg.maxSpins))) = true
      · rw [if_pos h1]
      · rw [if_neg h1]
        have h2 : s.bankroll ≤ strategy.stopLoss := by
          rcases hhalt with h | h
          · exact absurd (by simpa using h1) (by omega)
          · exact h
        rw [if_pos h2]

/-- A `wait_spins` root consuming one pre-sim wait spin. -/
def waitRoot : StrategyNode :=
  .mk .wait_spins (some [straightBet17]) (some 1) none none none none none none none none

def waitStrategy : StrategyConfig :=
  { rootNode := waitRoot, stopLoss := 0, takeProfit := 0 }

def zeroSpinConfig : SimConfig := { maxSpins := 0, tableMin := 1, tableMax := 500 }

/-- Claim C6 counterexample. The claim says `runSimulation` with `maxSpins = 0`
returns an empty ledger for every strategy tree. With a `wait_spins` root the
pre-sim wait phase runs before the spin budget is ever consulted, so the run
returns a one-entry ledger even though `maxSpins = 0`. -/
theorem empty_run_claim_false :
    zeroSpinConfig.maxSpins = 0 ∧
    (runSimulation 5 (fun _ => 5) 100 waitStrategy zeroSpinConfig).steps.length = 1 ∧
    (runSimulation 5 (fun _ => 5) 100 waitStrategy zeroSpinConfig).stats.totalSpins = 1 :=
  ⟨rfl, by decide, by decide⟩

/-- Claim C6, amended. For every strategy tree whose root does not trigger a
pre-sim wait phase (its root is not a `wait_spins` node with a non-zero wait
count, nor a `wait_condition` node with a non-empty condition), calling
`runSimulation` with `maxSpins = 0`, or with `stopLoss ≥ initialBankroll`,
returns an empty steps ledger and stats with `finalBankroll` equal to
`initialBankroll`, `totalSpins` 0, and ROI 0. -/
theorem empty_run_limits (fuel : Nat) (oracle : Nat → Nat) (init : Int)
    (strategy : StrategyConfig) (cfg : SimConfig)
    (hw1 : ¬(strategy.rootNode.type = .wait_spins ∧ truthyNat strategy.rootNode.value = true))
    (hw2 : ¬(strategy.rootNode.type = .wait_condition ∧ truthyStr strategy.rootNode.condition = true))
    (hhalt : cfg.maxSpins = 0 ∨ strategy.stopLoss ≥ init) :
    (runSimulation fuel oracle init strategy cfg).steps = [] ∧
    (runSimulation fuel oracle init strategy cfg).stats.finalBankroll = init ∧
    (runSimulation fuel oracle init strategy cfg).stats.totalSpins = 0 ∧
    (runSimulation fuel oracle init strategy cfg).stats.roi = 0 := by
  have hfinal : (runSimulation fuel oracle init strategy cfg).final =
      initState init strategy.rootNode := by
    unfold runSimulation
    dsimp only
    rw [if_neg hw1, if_neg hw2]
    exact mainLoop_immediate oracle init strategy cfg fuel _
      (by rcases hhalt with h | h
          · exact .inl (by simp [initState, h])
          · exact .inr (by simpa [initState] using h))
  have hsteps : (runSimulation fuel oracle init strategy cfg).steps =
      (runSimulation fuel oracle init strategy cfg).final.steps := by
    unfold runSimulation
    rfl
  have hstats : (runSimulation fuel oracle init strategy cfg).stats =
      mkStats init (runSimulation fuel oracle init strategy cfg).final := by
    unfold runSimulation
    rfl
  rw [hsteps, hstats, hfinal]
  refine ⟨rfl, rfl, rfl, ?_⟩
  show (if init > 0 then ((init - init : Int) : ℚ) / (init : ℚ) * 100 else 0) = 0
  split
  · simp
  · rfl

/-- Witness for the amended C6 theorem at a concrete strategy and `maxSpins = 0`. -/
theorem empty_run_limits_witness :
    (runSimulation 5 (fun _ => 17) 100 demoStrategy zeroSpinConfig).steps = [] ∧
    (runSimulation 5 (fun _ => 17) 100 demoStrategy zeroSpinConfig).stats.finalBankroll = 100 ∧
    (runSimulation 5 (fun _ => 17) 100 demoStrategy zeroSpinConfig).stats.totalSpins = 0 ∧
    (runSimulation 5 (fun _ => 17) 100 demoStrategy zeroSpinConfig).stats.roi = 0 :=
  empty_run_limits 5 (fun _ => 17) 100 demoStrategy zeroSpinConfig
    (by decide) (by decide) (.inl rfl)

/-! ## C3: termination of root self-loops -/

/-- The total wager the standard single-spin path would place from a state
(base bets scaled by the multiplier, then scaled down to the table max). -/
def activeWagerTotal (cfg : SimConfig) (s : SimState) : Nat :=
  let activeBets := scaleBets s.currentBaseBets s.currentMultiplier
  let totalWager := betSum activeBets
  let activeBets :=
    if (totalWager : Int) > cfg.tableMax then scaleToTableMax cfg.tableMax totalWager activeBets
    else activeBets
  betSum activeBets

/-- The ways the main loop can halt on its own: one of the four guard
conditions, or the insufficient-bankroll `break` of the single-spin path. -/
def HaltCondition (strategy : StrategyConfig) (cfg : SimConfig) (s : SimState) : Prop :=
  cfg.maxSpins ≤ s.spinsConsumed ∨
  s.bankroll ≤ strategy.stopLoss ∨
  (strategy.takeProfit > 0 ∧ s.bankroll ≥ strategy.takeProfit) ∨
  s.bankroll ≤ 0 ∨
  (activeWagerTotal cfg s : Int) > s.bankroll

theorem waitSpinsPhase_mono (oracle : Nat → Nat) (init : Int) (n : Nat) (s : SimState) :
    s.spinsConsumed ≤ (waitSpinsPhase oracle init n s).spinsConsumed ∧
    (waitSpinsPhase oracle init n s).currentNode = s.currentNode :=
  foldl_preserves
    (P := fun t => s.spinsConsumed ≤ t.spinsConsumed ∧ t.currentNode = s.currentNode)
    (fun t _ ht => by
      have hc := recordStep_cursor init (drawAt oracle t) [] "WAITING" true t
      exact ⟨by omega, by rw [hc.2.1, ht.2]⟩)
    (List.range n) s ⟨le_refl _, rfl⟩

theorem le_spins_waitSpinsPhase (oracle : Nat → Nat) (init : Int) (n : Nat)
    (t : SimState) (m : Nat) (hm : m ≤ t.spinsConsumed) :
    m ≤ (waitSpinsPhase oracle init n t).spinsConsumed :=
  le_trans hm (waitSpinsPhase_mono oracle init n t).1

theorem waitCondLoop_currentNode (oracle : Nat → Nat) (init : Int) (cond : String) :
    ∀ (fuel : Nat) (cm : Bool) (s : SimState),
      (waitCondLoop oracle init cond fuel cm s).currentNode = s.currentNode
  | 0, _, _ => rfl
  | fuel + 1, cm, s => by
      unfold waitCondLoop
      split
      · rfl
      · rw [waitCondLoop_currentNode oracle init cond fuel _ _]
        exact (recordStep_cursor init (drawAt oracle s) []
          ("WAITING_FOR_" ++ cond.toUpper) true s).2.1

/-- Structural size of a strategy subtree; the root back-edge and absent
children contribute nothing, so a subtree child is strictly smaller than its
parent. -/
def nodeSize : StrategyNode → Nat
  | .mk _ _ _ _ _ _ _ _ _ w l =>
      1 + (match w with | some (.inr n) => nodeSize n | _ => 0)
        + (match l with | some (.inr n) => nodeSize n | _ => 0)

/-- Every subtree has positive size. -/
theorem nodeSize_pos (n : StrategyNode) : 1 ≤ nodeSize n := by
  obtain ⟨t, b, v, c, p, mt, mv, rt, rv, w, l⟩ := n
  conv_rhs => rw [nodeSize.eq_def]
  dsimp only
  omega

/-- A direct subtree child reference: the only way the traversal cursor can
move to a node other than the root. -/
def isChildNode (m n : StrategyNode) : Prop :=
  n.childWin = some (.inr m) ∨ n.childLoss = some (.inr m)

/-- A subtree child is structurally smaller than its parent. -/
theorem nodeSize_lt_of_child (m n : StrategyNode) (h : isChildNode m n) :
    nodeSize m < nodeSize n := by
  obtain ⟨t, b, v, c, p, mt, mv, rt, rv, w, l⟩ := n
  rcases h with h | h
  · rw [show (StrategyNode.mk t b v c p mt mv rt rv w l).childWin = w from rfl] at h
    subst h
    conv_rhs => rw [nodeSize.eq_def]
    dsimp only
    omega
  · rw [show (StrategyNode.mk t b v c p mt mv rt rv w l).childLoss = l from rfl] at h
    subst h
    conv_rhs => rw [nodeSize.eq_def]
    dsimp only
    omega

/-- Weight of a cursor position in the loop termination measure: a martingale
or repeat-until node can hand the cursor on without consuming a spin (its
inner loop may abort before its first spin), so it weighs its subtree size;
every other node type either consumes a spin or breaks out of the main loop,
and weighs nothing. -/
def nodeWeight (n : StrategyNode) : Nat :=
  if n.type = .martingale ∨ n.type = .repeat_until then nodeSize n else 0

theorem nodeWeight_le (n : StrategyNode) : nodeWeight n ≤ nodeSize n := by
  unfold nodeWeight
  split
  · exact le_refl _
  · exact Nat.zero_le _

/-- The termination measure of the main loop: the remaining spin budget,
scaled past the largest possible cursor weight, plus the cursor weight. Every
main-loop iteration that neither halts nor breaks strictly decreases it. -/
def loopMeasure (cfg : SimConfig) (root : StrategyNode) (s : SimState) : Nat :=
  (cfg.maxSpins + 1 - s.spinsConsumed) * (nodeSize root + 1) + nodeWeight s.currentNode

/-- A resolved child is the root or names a direct subtree child. -/
theorem resolveChild_cases (root : StrategyNode) (c : Option (Unit ⊕ StrategyNode))
    (m : StrategyNode) (h : resolveChild root c = some m) :
    m = root ∨ c = some (.inr m) := by
  rcases c with _ | cc
  · exact Option.noConfusion (show (none : Option StrategyNode) = some m from h)
  · rcases cc with u | n
    · left
      have hh : some root = some m := h
      exact (Option.some.inj hh).symm
    · right
      have hh : some n = some m := h
      rw [Option.some.inj hh]

/-- The node transition never decreases the spin counter, and moves the
cursor either to the root or to the node the given child reference names. -/
theorem applyNodeTransition_cursor (oracle : Nat → Nat) (init : Int)
    (root : StrategyNode) (wwc : Bool) (next : Option (Unit ⊕ StrategyNode))
    (s : SimState) :
    s.spinsConsumed ≤ (applyNodeTransition oracle init root wwc next s).spinsConsumed ∧
    ((applyNodeTransition oracle init root wwc next s).currentNode = root ∨
      next = some (.inr (applyNodeTransition oracle init root wwc next s).currentNode)) := by
  unfold applyNodeTransition
  cases hres : resolveChild root next with
  | none =>
      exact ⟨le_refl _, .inl rfl⟩
  | some node =>
      have hcase := resolveChild_cases root next node hres
      dsimp only
      (repeat' (split <;> (try dsimp only))) <;>
        first
        | exact ⟨le_refl _, .inl rfl⟩
        | exact ⟨le_refl _, hcase⟩
        | exact ⟨le_spins_waitSpinsPhase oracle init _ _ _ (le_refl _), by
            rw [(waitSpinsPhase_mono oracle init _ _).2]
            exact hcase⟩

/-- After a node finishes, the cursor lands on the root or on a direct
subtree child of the node whose child reference drove the transition. -/
theorem transition_cursor (oracle : Nat → Nat) (init : Int) (root : StrategyNode)
    (wwc : Bool) (cur : StrategyNode) (s : SimState)
    (next : Option (Unit ⊕ StrategyNode))
    (hnext : next = cur.childWin ∨ next = cur.childLoss) :
    (applyNodeTransition oracle init root wwc next s).currentNode = root ∨
    isChildNode (applyNodeTransition oracle init root wwc next s).currentNode cur := by
  rcases (applyNodeTransition_cursor oracle init root wwc next s).2 with h | h
  · exact .inl h
  · right
    rcases hnext with rfl | rfl
    · exact Or.inl h
    · exact Or.inr h

/-- The martingale inner loop never decreases the spin counter and never
moves the traversal cursor. -/
theorem martingaleLoop_reach (oracle : Nat → Nat) (init : Int) (cfg : SimConfig)
    (lt : MartingaleLimitType) (lv seqStart : Int) :
    ∀ (fuel stepCount : Nat) (t : SimState) (m : Nat) (nd : StrategyNode),
      m ≤ t.spinsConsumed → t.currentNode = nd →
      m ≤ (martingaleLoop oracle init cfg lt lv seqStart fuel stepCount t).spinsConsumed ∧
      (martingaleLoop oracle init cfg lt lv seqStart fuel stepCount t).currentNode = nd
  | 0, c, t, m, nd, hm, hnd => by
      rw [show martingaleLoop oracle init cfg lt lv seqStart 0 c t = t from rfl]
      exact ⟨hm, hnd⟩
  | fuel + 1, stepCount, t, m, nd, hm, hnd => by
      unfold martingaleLoop
      split
      · exact ⟨hm, hnd⟩
      · have hrec := recordStep_cursor init (drawAt oracle t)
          (scaleBets t.currentBaseBets t.currentMultiplier)
          ("MARTINGALE_x" ++ toString t.currentMultiplier) false t
        cases lt <;> (dsimp only; repeat' split) <;>
          first
          | exact ⟨hm, hnd⟩
          | exact ⟨by (try dsimp only); rw [hrec.1]; omega,
              by (try dsimp only); rw [hrec.2.1]; exact hnd⟩
          | exact martingaleLoop_reach oracle init cfg _ lv seqStart fuel _ _ m nd
              (by (try dsimp only); rw [hrec.1]; omega)
              (by (try dsimp only); rw [hrec.2.1]; exact hnd)

/-- The repeat-until inner loop never decreases the spin counter and never
moves the traversal cursor. -/
theorem repeatLoop_reach (oracle : Nat → Nat) (init : Int) (cfg : SimConfig)
    (rt : RepeatUntilType) (rv seqStart : Int) :
    ∀ (fuel loopSpins loopWins : Nat) (t : SimState) (m : Nat) (nd : StrategyNode),
      m ≤ t.spinsConsumed → t.currentNode = nd →
      m ≤ (repeatLoop oracle init cfg rt rv seqStart fuel loopSpins loopWins t).spinsConsumed ∧
      (repeatLoop oracle init cfg rt rv seqStart fuel loopSpins loopWins t).currentNode = nd
  | 0, ls, lw, t, m, nd, hm, hnd => by
      rw [show repeatLoop oracle init cfg rt rv seqStart 0 ls lw t = t from rfl]
      exact ⟨hm, hnd⟩
  | fuel + 1, ls, lw, t, m, nd, hm, hnd => by
      unfold repeatLoop
      have hrec : ∀ ab : List PlacedBet,
          (recordStep init (drawAt oracle t) ab ("REPEAT_" ++ rt.upper) false t).1.spinsConsumed
              = t.spinsConsumed + 1 ∧
          (recordStep init (drawAt oracle t) ab ("REPEAT_" ++ rt.upper) false t).1.currentNode
              = t.currentNode :=
        fun ab => ⟨(recordStep_cursor init (drawAt oracle t) ab ("REPEAT_" ++ rt.upper) false t).1,
          (recordStep_cursor init (drawAt oracle t) ab ("REPEAT_" ++ rt.upper) false t).2.1⟩
      dsimp only
      (repeat' (split <;> (try dsimp only))) <;>
        first
        | exact ⟨hm, hnd⟩
        | exact ⟨by rw [(hrec _).1]; omega, by rw [(hrec _).2]; exact hnd⟩
        | exact repeatLoop_reach oracle init cfg rt rv seqStart fuel _ _ _ m nd
            (by rw [(hrec _).1]; omega) (by rw [(hrec _).2]; exact hnd)

/-- The single-spin tail of a main-loop iteration (after table-max scaling has
produced the active bet list `ab` and tag): it either breaks on insufficient
bankroll leaving the state unchanged, or consumes at least one spin and hands
the cursor to the root or to a direct child of the node that placed the bet. -/
theorem mainStep_progress_aux (oracle : Nat → Nat) (init : Int)
    (strategy : StrategyConfig) (s : SimState) (ab : List PlacedBet) (tag : String)
    (E : SimState × Bool)
    (hE : E = if (betSum ab : Int) > s.bankroll then (s, true)
      else (applyNodeTransition oracle init strategy.rootNode true
        (if lastStepWon (recordStep init (drawAt oracle s) ab tag false s).1 = true
         then (recordStep init (drawAt oracle s) ab tag false s).1.currentNode.childWin
         else (recordStep init (drawAt oracle s) ab tag false s).1.currentNode.childLoss)
        (recordStep init (drawAt oracle s) ab tag false s).1, false)) :
    (E.2 = true ∧ (betSum ab : Int) > s.bankroll ∧ E.1 = s) ∨
    (E.2 = false ∧ s.spinsConsumed + 1 ≤ E.1.spinsConsumed ∧
      (E.1.currentNode = strategy.rootNode ∨ isChildNode E.1.currentNode s.currentNode)) := by
  subst hE
  split
  · rename_i hbreak
    exact .inl ⟨rfl, hbreak, rfl⟩
  · right
    dsimp only
    have hrec := recordStep_cursor init (drawAt oracle s) ab tag false s
    refine ⟨rfl, le_trans (le_of_eq hrec.1.symm)
        (applyNodeTransition_cursor oracle init strategy.rootNode true _ _).1,
      transition_cursor oracle init strategy.rootNode true s.currentNode _ _ ?_⟩
    split
    · exact Or.inl (by rw [hrec.2.1])
    · exact Or.inr (by rw [hrec.2.1])

/-- One main-loop iteration, from an arbitrary state: either it breaks because
the scaled wager exceeds the bankroll (leaving the state unchanged), or it
leaves the spin counter no smaller (strictly larger unless the cursor sat on a
martingale or repeat-until node) and hands the cursor to the root or to a
direct subtree child of the node it visited. -/
theorem mainStep_progress (oracle : Nat → Nat) (init : Int)
    (strategy : StrategyConfig) (cfg : SimConfig) (s : SimState) :
    ((mainStep oracle init strategy cfg s).2 = true ∧
       (activeWagerTotal cfg s : Int) > s.bankroll ∧
       (mainStep oracle init strategy cfg s).1 = s) ∨
    ((mainStep oracle init strategy cfg s).2 = false ∧
       s.spinsConsumed ≤ (mainStep oracle init strategy cfg s).1.spinsConsumed ∧
       ((mainStep oracle init strategy cfg s).1.currentNode = strategy.rootNode ∨
         isChildNode (mainStep oracle init strategy cfg s).1.currentNode s.currentNode) ∧
       (s.currentNode.type = .martingale ∨ s.currentNode.type = .repeat_until ∨
         s.spinsConsumed + 1 ≤ (mainStep oracle init strategy cfg s).1.spinsConsumed)) := by
  unfold mainStep
  by_cases hmart : s.currentNode.type = .martingale
  · rw [if_pos hmart]
    dsimp only
    right
    have hml := martingaleLoop_reach oracle init cfg
      (s.currentNode.martingaleLimitType.getD .until_bankrupt)
      (orElseInt s.currentNode.martingaleLimitValue 0) s.bankroll
      (cfg.maxSpins + 1 - s.spinsConsumed) 0 s s.spinsConsumed s.currentNode (le_refl _) rfl
    refine ⟨rfl, le_trans hml.1
        (applyNodeTransition_cursor oracle init strategy.rootNode false _ _).1,
      transition_cursor oracle init strategy.rootNode false s.currentNode _ _ ?_,
      Or.inl hmart⟩
    split
    · exact Or.inl (by rw [hml.2])
    · exact Or.inr (by rw [hml.2])
  · rw [if_neg hmart]
    by_cases hrep : s.currentNode.type = .repeat_until
    · rw [if_pos hrep]
      dsimp only
      right
      have hrl := repeatLoop_reach oracle init cfg
        (s.currentNode.repeatUntilType.getD .spins)
        (orElseInt s.currentNode.repeatUntilValue 1) s.bankroll
        (cfg.maxSpins + 1 - s.spinsConsumed) 0 0 s s.spinsConsumed s.currentNode (le_refl _) rfl
      exact ⟨rfl, le_trans hrl.1
          (applyNodeTransition_cursor oracle init strategy.rootNode false _ _).1,
        transition_cursor oracle init strategy.rootNode false s.currentNode _ _
          (Or.inl (by rw [hrl.2])),
        Or.inr (Or.inl hrep)⟩
    · rw [if_neg hrep]
      dsimp only
      split <;> rename_i hmax
      · rcases mainStep_progress_aux oracle init strategy s _ _ _ rfl with h | h
        · refine .inl ⟨h.1, ?_, h.2.2⟩
          unfold activeWagerTotal
          dsimp only
          rw [if_pos hmax]
          exact h.2.1
        · exact .inr ⟨h.1, le_trans (Nat.le_succ _) h.2.1, h.2.2,
            Or.inr (Or.inr h.2.1)⟩
      · rcases mainStep_progress_aux oracle init strategy s _ _ _ rfl with h | h
        · refine .inl ⟨h.1, ?_, h.2.2⟩
          unfold activeWagerTotal
          dsimp only
          rw [if_neg hmax]
          exact h.2.1
        · exact .inr ⟨h.1, le_trans (Nat.le_succ _) h.2.1, h.2.2,
            Or.inr (Or.inr h.2.1)⟩

/-- The main loop halts by its own exit conditions, from any state whose
cursor sits inside the tree, once the fuel exceeds the termination measure:
when the root is not a martingale or repeat-until node, every iteration
either consumes a spin (bounded by the spin budget) or strictly descends the
finite tree until the next root visit, which must consume a spin or break. -/
theorem mainLoop_descends (oracle : Nat → Nat) (init : Int)
    (strategy : StrategyConfig) (cfg : SimConfig)
    (hroot1 : strategy.rootNode.type ≠ .martingale)
    (hroot2 : strategy.rootNode.type ≠ .repeat_until) :
    ∀ (fuel : Nat) (s : SimState),
      nodeSize s.currentNode ≤ nodeSize strategy.rootNode →
      loopMeasure cfg strategy.rootNode s < fuel →
      (mainLoop oracle init strategy cfg fuel s).2 = true ∧
      HaltCondition strategy cfg (mainLoop oracle init strategy cfg fuel s).1
  | 0, s, _, hf => absurd hf (by omega)
  | fuel + 1, s, hsz, hf => by
      have hno : ¬(strategy.rootNode.type = .martingale ∨
          strategy.rootNode.type = .repeat_until) := by
        rintro (h | h)
        · exact hroot1 h
        · exact hroot2 h
      unfold mainLoop
      by_cases g1 : (!(decide (s.spinsConsumed < cfg.maxSpins))) = true
      · rw [if_pos g1]
        exact ⟨rfl, .inl (by simpa using g1)⟩
      · rw [if_neg g1]
        have hg1 : s.spinsConsumed < cfg.maxSpins := by simpa using g1
        by_cases g2 : s.bankroll ≤ strategy.stopLoss
        · rw [if_pos g2]
          exact ⟨rfl, .inr (.inl g2)⟩
        · rw [if_neg g2]
          by_cases g3 : strategy.takeProfit > 0 ∧ s.bankroll ≥ strategy.takeProfit
          · rw [if_pos g3]
            exact ⟨rfl, .inr (.inr (.inl g3))⟩
          · rw [if_neg g3]
            by_cases g4 : s.bankroll ≤ 0
            · rw [if_pos g4]
              exact ⟨rfl, .inr (.inr (.inr (.inl g4)))⟩
            · rw [if_neg g4]
              dsimp only
              rcases mainStep_progress oracle init strategy cfg s
                with ⟨hb, hw, hs⟩ | ⟨hb, hmono, hcur, hlast⟩
              · rw [if_pos hb]
                refine ⟨rfl, ?_⟩
                rw [hs]
                exact .inr (.inr (.inr (.inr hw)))
              · rw [if_neg (by rw [hb]; exact Bool.false_ne_true)]
                have hsz' : nodeSize (mainStep oracle init strategy cfg s).1.currentNode ≤
                    nodeSize strategy.rootNode := by
                  rcases hcur with hc | hc
                  · rw [hc]
                  · exact le_trans (le_of_lt (nodeSize_lt_of_child _ _ hc)) hsz
                have hf' : loopMeasure cfg strategy.rootNode
                    (mainStep oracle init strategy cfg s).1 < fuel := by
                  unfold loopMeasure at hf ⊢
                  by_cases hspin : s.spinsConsumed + 1 ≤
                      (mainStep oracle init strategy cfg s).1.spinsConsumed
                  · have hB : cfg.maxSpins + 1 -
                        (mainStep oracle init strategy cfg s).1.spinsConsumed ≤
                        cfg.maxSpins - s.spinsConsumed := by omega
                    have hQ := mul_le_mul_right' hB (nodeSize strategy.rootNode + 1)
                    have hB1 : cfg.maxSpins + 1 - s.spinsConsumed =
                        (cfg.maxSpins - s.spinsConsumed) + 1 := by omega
                    rw [hB1, Nat.add_mul, one_mul] at hf
                    have hwt : nodeWeight (mainStep oracle init strategy cfg s).1.currentNode ≤
                        nodeSize strategy.rootNode :=
                      le_trans (nodeWeight_le _) hsz'
                    omega
                  · have hsp : (mainStep oracle init strategy cfg s).1.spinsConsumed =
                        s.spinsConsumed := by omega
                    rw [hsp]
                    have htype : s.currentNode.type = .martingale ∨
                        s.currentNode.type = .repeat_until := by
                      rcases hlast with h | h | h
                      · exact Or.inl h
                      · exact Or.inr h
                      · exact absurd h hspin
                    have hws : nodeWeight s.currentNode = nodeSize s.currentNode := by
                      unfold nodeWeight
                      rw [if_pos htype]
                    have hwt : nodeWeight (mainStep oracle init strategy cfg s).1.currentNode <
                        nodeWeight s.currentNode := by
                      rw [hws]
                      rcases hcur with hc | hc
                      · rw [hc]
                        have h0 : nodeWeight strategy.rootNode = 0 := by
                          unfold nodeWeight
                          rw [if_neg hno]
                        rw [h0]
                        exact nodeSize_pos _
                      · exact Nat.lt_of_le_of_lt (nodeWeight_le _)
                          (nodeSize_lt_of_child _ _ hc)
                    omega
                exact mainLoop_descends oracle init strategy cfg hroot1 hroot2 fuel
                  (mainStep oracle init strategy cfg s).1 hsz' hf'

/-- The main loop from a state whose cursor sits at a non-martingale,
non-repeat-until root halts by its own exit conditions once the fuel exceeds
the measure of the starting position. -/
theorem mainLoop_descends_start (oracle : Nat → Nat) (init : Int)
    (strategy : StrategyConfig) (cfg : SimConfig)
    (hroot1 : strategy.rootNode.type ≠ .martingale)
    (hroot2 : strategy.rootNode.type ≠ .repeat_until)
    (fuel : Nat) (s : SimState)
    (hcur : s.currentNode = strategy.rootNode)
    (hfuel : (cfg.maxSpins + 1) * (nodeSize strategy.rootNode + 1) < fuel) :
    (mainLoop oracle init strategy cfg fuel s).2 = true ∧
    HaltCondition strategy cfg (mainLoop oracle init strategy cfg fuel s).1 := by
  have hno : ¬(strategy.rootNode.type = .martingale ∨
      strategy.rootNode.type = .repeat_until) := by
    rintro (h | h)
    · exact hroot1 h
    · exact hroot2 h
  have hw0 : nodeWeight strategy.rootNode = 0 := by
    unfold nodeWeight
    rw [if_neg hno]
  refine mainLoop_descends oracle init strategy cfg hroot1 hroot2 fuel s
    (le_of_eq (congrArg nodeSize hcur)) (lt_of_le_of_lt ?_ hfuel)
  unfold loopMeasure
  rw [hcur, hw0]
  have := mul_le_mul_right' (Nat.sub_le (cfg.maxSpins + 1) s.spinsConsumed)
    (nodeSize strategy.rootNode + 1)
  omega

/-- Claim C3, amended. For every strategy tree whose root's `onWin` child is
(by identity) the root itself and whose root is not a martingale or
repeat-until node — the `onLoss` child may be absent, the root, or an
arbitrary subtree — `runSimulation` terminates for every starting bankroll
and config (with main-loop fuel exceeding `(maxSpins + 1)` times one more
than the root's subtree size, the loop exits by its own conditions), halting
only when a halt condition holds in the final state: spin budget exhausted,
bankroll at or below `stopLoss`, take-profit reached (when `takeProfit > 0`),
bankroll at or below 0, or the scaled wager total exceeding the bankroll (the
insufficient-bankroll break). The martingale and repeat-until exclusions are
forced by the counterexample: a martingale root whose base wager exceeds the
table max consumes no spin and loops forever. -/
theorem selfLoop_run_terminates (fuel : Nat) (oracle : Nat → Nat) (init : Int)
    (strategy : StrategyConfig) (cfg : SimConfig)
    (hroot1 : strategy.rootNode.type ≠ .martingale)
    (hroot2 : strategy.rootNode.type ≠ .repeat_until)
    (hwin : strategy.rootNode.childWin = some (.inl ()))
    (hfuel : (cfg.maxSpins + 1) * (nodeSize strategy.rootNode + 1) < fuel) :
    (runSimulation fuel oracle init strategy cfg).finished = true ∧
    HaltCondition strategy cfg (runSimulation fuel oracle init strategy cfg).final := by
  unfold runSimulation
  dsimp only
  split
  · exact mainLoop_descends_start oracle init strategy cfg hroot1 hroot2 fuel _
      ((waitSpinsPhase_mono oracle init _ _).2) hfuel
  · split
    · exact mainLoop_descends_start oracle init strategy cfg hroot1 hroot2 fuel _
        (waitCondLoop_currentNode oracle init _ 200 false _) hfuel
    · exact mainLoop_descends_start oracle init strategy cfg hroot1 hroot2 fuel _
        rfl hfuel

/-- A self-looping single-spin root for the C3 witness. -/
def selfLoopOkRoot : StrategyNode :=
  .mk .start_immediately (some [straightBet17]) none none none none none none none
    (some (.inl ())) none

def selfLoopOkStrategy : StrategyConfig :=
  { rootNode := selfLoopOkRoot, stopLoss := 0, takeProfit := 0 }

/-- Witness for the amended C3 theorem at a concrete self-looping strategy. -/
theorem selfLoop_run_terminates_witness :
    (runSimulation 7 (fun _ => 17) 100 selfLoopOkStrategy demoConfig).finished = true ∧
    HaltCondition selfLoopOkStrategy demoConfig
      (runSimulation 7 (fun _ => 17) 100 selfLoopOkStrategy demoConfig).final :=
  selfLoop_run_terminates 7 (fun _ => 17) 100 selfLoopOkStrategy demoConfig
    (by decide) (by decide) rfl (by decide)

/-- A martingale root whose base wager ($2000) exceeds the table max ($500)
and whose `onWin` child is the root itself. -/
def overMaxMartBet : PlacedBet :=
  { type := .STRAIGHT, numbers := [17], amount := 2000, label := none }

def overMaxMartRoot : StrategyNode :=
  .mk .martingale (some [overMaxMartBet]) none none none none none none none
    (some (.inl ())) none

def overMaxMartStrategy : StrategyConfig :=
  { rootNode := overMaxMartRoot, stopLoss := 0, takeProfit := 0 }

def overMaxMartCfg : SimConfig := { maxSpins := 10, tableMin := 1, tableMax := 500 }

/-- The martingale visit from the initial state aborts before its first spin
(wager over table max) and the win self-loop reproduces the state exactly. -/
theorem overMaxMart_mainStep_fix :
    mainStep (fun _ => 5) 1000 overMaxMartStrategy overMaxMartCfg
      (initState 1000 overMaxMartRoot) = (initState 1000 overMaxMartRoot, false) := rfl

theorem overMaxMart_mainLoop_stuck :
    ∀ fuel : Nat,
      mainLoop (fun _ => 5) 1000 overMaxMartStrategy overMaxMartCfg fuel
        (initState 1000 overMaxMartRoot) = (initState 1000 overMaxMartRoot, false)
  | 0 => rfl
  | fuel + 1 => by
      unfold mainLoop
      rw [if_neg (by decide), if_neg (by decide), if_neg (by decide), if_neg (by decide)]
      dsimp only
      rw [overMaxMart_mainStep_fix]
      dsimp only
      rw [if_neg Bool.false_ne_true]
      exact overMaxMart_mainLoop_stuck fuel

/-- The termination proposition the C3 claim asserts at the counterexample
input: some amount of main-loop fuel makes the run finish on its own. -/
def OverMaxMartTerminates : Prop :=
  ∃ fuel, (runSimulation fuel (fun _ => 5) 1000 overMaxMartStrategy overMaxMartCfg).finished = true

/-- Claim C3 counterexample. The claim asserts termination for every tree whose
root's `onWin` is the root and every bankroll and config. For a martingale
root whose base wager exceeds the table max, the inner loop exits before any
spin, the sequence counts as won (bankroll unchanged), the win self-loop
reinstalls the identical state, and the main loop never consumes a spin nor
reaches any halt condition: the run does not terminate for any fuel. -/
theorem selfLoop_termination_claim_false :
    overMaxMartRoot.childWin = some (.inl ()) ∧ ¬ OverMaxMartTerminates := by
  refine ⟨rfl, ?_⟩
  rintro ⟨fuel, hf⟩
  have hrun : (runSimulation fuel (fun _ => 5) 1000 overMaxMartStrategy overMaxMartCfg).finished
      = false := by
    unfold runSimulation
    dsimp only
    rw [if_neg (by decide), if_neg (by decide)]
    exact congrArg Prod.snd (overMaxMart_mainLoop_stuck fuel)
  rw [hf] at hrun
  exact absurd hrun (by decide)

/-! ## C10: empty active bet list -/

/-- Claim C10. If the active base wager list is empty when a single-spin node
executes (the node is not a martingale or repeat-until node; its children are
absent, as for a bare root with no bets), the main-loop iteration raises no
error and does not break: it draws a spin and appends exactly one ledger entry
with `betTotal` 0, `payout` 0, `net` 0, `won = false` and action tag
`'NO_BET'`, leaving the bankroll unchanged, so the run continues until the
spin budget or another halt condition is reached. -/
theorem no_bet_spin (oracle : Nat → Nat) (init : Int) (strategy : StrategyConfig)
    (cfg : SimConfig) (s : SimState)
    (hbase : s.currentBaseBets = [])
    (htype1 : s.currentNode.type ≠ .martingale)
    (htype2 : s.currentNode.type ≠ .repeat_until)
    (hcw : s.currentNode.childWin = none)
    (hcl : s.currentNode.childLoss = none)
    (hbank : 0 ≤ s.bankroll) :
    (mainStep oracle init strategy cfg s).2 = false ∧
    (mainStep oracle init strategy cfg s).1.steps = s.steps ++
      [{ spinIndex := s.spinsConsumed + 1, result := drawAt oracle s,
         bets := [], outcomes := [], betTotal := 0, payout := 0, net := 0,
         bankroll := s.bankroll, won := false, actionType := "NO_BET" }] ∧
    (mainStep oracle init strategy cfg s).1.bankroll = s.bankroll := by
  have h0 : ¬((0 : Int) > s.bankroll) := by omega
  unfold mainStep
  rw [if_neg htype1, if_neg htype2]
  dsimp only
  rw [hbase]
  simp only [scaleBets, List.map_nil, betSum, List.foldl_nil, Nat.cast_zero, ite_self,
    scaleToTableMax, if_neg h0, List.length_nil, gt_iff_lt, Nat.lt_irrefl, if_false]
  rw [recordStep]
  simp only [betSum, List.foldl_nil, Nat.cast_zero, Bool.not_false, Bool.true_and,
    decide_eq_true_eq, if_neg h0, calculateDetailedOutcomes, List.foldl_nil]
  rw [hcw, hcl]
  simp only [ite_self, applyNodeTransition, resolveChild]
  refine ⟨trivial, ?_, ?_⟩ <;> simp

/-- A bare root carrying no bets and no children. -/
def noBetRoot : StrategyNode :=
  .mk .start_immediately none none none none none none none none none none

def noBetStrategy : StrategyConfig :=
  { rootNode := noBetRoot, stopLoss := 0, takeProfit := 0 }

/-- Witness for C10 at the initial state of a no-bet root. -/
theorem no_bet_spin_witness :
    (mainStep (fun _ => 5) 100 noBetStrategy demoConfig (initState 100 noBetRoot)).2 = false ∧
    (mainStep (fun _ => 5) 100 noBetStrategy demoConfig (initState 100 noBetRoot)).1.steps =
      (initState 100 noBetRoot).steps ++
      [{ spinIndex := (initState 100 noBetRoot).spinsConsumed + 1,
         result := drawAt (fun _ => 5) (initState 100 noBetRoot),
         bets := [], outcomes := [], betTotal := 0, payout := 0, net := 0,
         bankroll := (initState 100 noBetRoot).bankroll,
         won := false, actionType := "NO_BET" }] ∧
    (mainStep (fun _ => 5) 100 noBetStrategy demoConfig (initState 100 noBetRoot)).1.bankroll =
      (initState 100 noBetRoot).bankroll :=
  no_bet_spin (fun _ => 5) 100 noBetStrategy demoConfig (initState 100 noBetRoot)
    rfl (by decide) (by decide) rfl rfl (by decide)

/-! ## C9: martingale with a spin-count limit -/

/-- The ledger entry `recordStep` pushes on success (the affordability check
passed) for a non-wait spin. -/
def recordedEntry (result : SpinResult) (activeBets : List PlacedBet)
    (tag : String) (s : SimState) : SimulationStep :=
  let betTotal := betSum activeBets
  let d := calculateDetailedOutcomes activeBets result
  let net := d.totalPayout - (betTotal : Int)
  { spinIndex := s.spinsConsumed + 1, result := result, bets := activeBets,
    outcomes := d.outcomes, betTotal := betTotal, payout := d.totalPayout,
    net := net, bankroll := s.bankroll + net, won := net > 0, actionType := tag }

theorem recordStep_success (init : Int) (result : SpinResult)
    (activeBets : List PlacedBet) (tag : String) (s : SimState)
    (h : ¬((betSum activeBets : Int) > s.bankroll)) :
    (recordStep init result activeBets tag false s).1.steps =
      s.steps ++ [recordedEntry result activeBets tag s] ∧
    (recordStep init result activeBets tag false s).2 = true := by
  unfold recordStep recordedEntry
  rw [if_neg (by simpa using h)]
  exact ⟨rfl, rfl⟩

theorem lastStepWon_concat (s : SimState) (xs : List SimulationStep)
    (e : SimulationStep) (h : s.steps = xs ++ [e]) : lastStepWon s = e.won := by
  unfold lastStepWon
  rw [h, List.getLast?_concat]

/-- The multiplier the martingale visit uses for each successive recorded
entry: it starts at `m0` and doubles after every entry that was not won. -/
def martMultipliers (m0 : Nat) : List SimulationStep → List Nat
  | [] => []
  | e :: rest => m0 :: martMultipliers (if e.won then m0 else m0 * 2) rest

/-- The inner martingale loop under `spin_count`/3, entered with step count
`c < 3`: the previous ledger is untouched, at most `3 - c` entries are added,
and each added entry's wager snapshot is the base bets scaled by the
doubling-after-loss multiplier sequence. -/
theorem martingaleLoop_spin3 (oracle : Nat → Nat) (init : Int) (cfg : SimConfig)
    (seqStart : Int) :
    ∀ (fuel c : Nat) (s : SimState), c < 3 →
      ((martingaleLoop oracle init cfg .spin_count 3 seqStart fuel c s).steps.take
          s.steps.length = s.steps) ∧
      ((martingaleLoop oracle init cfg .spin_count 3 seqStart fuel c s).steps.length ≤
          s.steps.length + (3 - c)) ∧
      (((martingaleLoop oracle init cfg .spin_count 3 seqStart fuel c s).steps.drop
            s.steps.length).map (fun e => e.bets) =
        (martMultipliers s.currentMultiplier
            ((martingaleLoop oracle init cfg .spin_count 3 seqStart fuel c s).steps.drop
              s.steps.length)).map (fun m => scaleBets s.currentBaseBets m))
  | 0, c, s, _ => by
      refine ⟨List.take_length s.steps, ?_, ?_⟩ <;>
        rw [show (martingaleLoop oracle init cfg .spin_count 3 seqStart 0 c s) = s from rfl]
      · omega
      · rw [List.drop_length]
        rfl
  | fuel + 1, c, s, hc => by
      unfold martingaleLoop
      split
      · exact ⟨List.take_length s.steps, by omega, by rw [List.drop_length]; rfl⟩
      · dsimp only
        split
        · exact ⟨List.take_length s.steps, by omega, by rw [List.drop_length]; rfl⟩
        · rename_i hguard hwager
          have hnb : ¬((betSum (scaleBets s.currentBaseBets s.currentMultiplier) : Int) >
              s.bankroll) := by
            intro hcon
            exact hwager (by simp [hcon])
          have hrs := recordStep_success init (drawAt oracle s)
            (scaleBets s.currentBaseBets s.currentMultiplier)
            ("MARTINGALE_x" ++ toString s.currentMultiplier) s hnb
          set e := recordedEntry (drawAt oracle s)
            (scaleBets s.currentBaseBets s.currentMultiplier)
            ("MARTINGALE_x" ++ toString s.currentMultiplier) s with he
          rw [if_neg (by rw [hrs.2]; exact (by decide : ¬((!true) = true)))]
          have hlw := lastStepWon_concat _ s.steps e hrs.1
          have hcursor := recordStep_cursor init (drawAt oracle s)
            (scaleBets s.currentBaseBets s.currentMultiplier)
            ("MARTINGALE_x" ++ toString s.currentMultiplier) false s
          -- the one-entry exit states share this bookkeeping
          have hone : ∀ u : SimState, u.steps = s.steps ++ [e] →
              (u.steps.take s.steps.length = s.steps) ∧
              (u.steps.length ≤ s.steps.length + (3 - c)) ∧
              ((u.steps.drop s.steps.length).map (fun e => e.bets) =
                (martMultipliers s.currentMultiplier
                  (u.steps.drop s.steps.length)).map
                    (fun m => scaleBets s.currentBaseBets m)) := by
            intro u hu
            refine ⟨by rw [hu, List.take_left], by rw [hu]; simp; omega, ?_⟩
            rw [hu, List.drop_left]
            simp only [List.map_cons, List.map_nil, martMultipliers]
            rw [he]
            rfl
          split
          · -- step count reached the limit: the sequence stops after this spin
            split
            · exact hone _ hrs.1
            · split
              · rename_i habs
                simp at habs
              · exact hone _ hrs.1
          · rename_i hcount
            -- c + 1 < 3: the loop may continue with the progressed multiplier
            have hc1 : c + 1 < 3 := by
              by_contra hge
              exact hcount (by push_cast; omega)
            -- the recursive exits share this combination of the induction
            -- hypothesis with the freshly recorded entry
            have hcomb : ∀ s'' : SimState, s''.steps = s.steps ++ [e] →
                s''.currentBaseBets = s.currentBaseBets →
                (if e.won then s.currentMultiplier else s.currentMultiplier * 2) =
                  s''.currentMultiplier →
                ((martingaleLoop oracle init cfg .spin_count 3 seqStart fuel (c + 1)
                    s'').steps.take s.steps.length = s.steps) ∧
                ((martingaleLoop oracle init cfg .spin_count 3 seqStart fuel (c + 1)
                    s'').steps.length ≤ s.steps.length + (3 - c)) ∧
                (((martingaleLoop oracle init cfg .spin_count 3 seqStart fuel (c + 1)
                      s'').steps.drop s.steps.length).map (fun x => x.bets) =
                  (martMultipliers s.currentMultiplier
                      ((martingaleLoop oracle init cfg .spin_count 3 seqStart fuel (c + 1)
                        s'').steps.drop s.steps.length)).map
                      (fun m => scaleBets s.currentBaseBets m)) := by
              intro s'' hsteps hbase hmult
              obtain ⟨ih1, ih2, ih3⟩ :=
                martingaleLoop_spin3 oracle init cfg seqStart fuel (c + 1) s'' hc1
              rw [hsteps] at ih1 ih2 ih3
              rw [hbase] at ih3
              have hsplit : (martingaleLoop oracle init cfg .spin_count 3 seqStart fuel
                  (c + 1) s'').steps = (s.steps ++ [e]) ++
                  (martingaleLoop oracle init cfg .spin_count 3 seqStart fuel
                    (c + 1) s'').steps.drop (s.steps ++ [e]).length := by
                conv_lhs => rw [← List.take_append_drop (s.steps ++ [e]).length
                  (martingaleLoop oracle init cfg .spin_count 3 seqStart fuel
                    (c + 1) s'').steps]
                rw [ih1]
              refine ⟨?_, ?_, ?_⟩
              · conv_lhs => rw [hsplit, List.append_assoc]
                exact List.take_left _ _
              · simp only [List.length_append, List.length_singleton] at ih2
                omega
              · conv_lhs => rw [hsplit, List.append_assoc, List.drop_left]
                conv_rhs => rw [hsplit, List.append_assoc, List.drop_left]
                rw [List.singleton_append, List.map_cons,
                  show ∀ rest, martMultipliers s.currentMultiplier (e :: rest) =
                    s.currentMultiplier :: martMultipliers
                      (if e.won then s.currentMultiplier else s.currentMultiplier * 2) rest
                    from fun _ => rfl,
                  List.map_cons, hmult]
                refine congrArg₂ _ ?_ ih3
                rw [he]
                rfl
            split
            · -- the spin lost: the multiplier doubles before the next spin
              rename_i hlost
              have hewon : e.won = false := by
                rw [← hlw]
                simpa using hlost
              split
              · exact hone _ hrs.1
              · split
                · refine hcomb _ hrs.1 hcursor.2.2.1 ?_
                  rw [hewon]
                  show s.currentMultiplier * 2 = _
                  rw [hcursor.2.2.2]
                · rename_i habs
                  exact absurd rfl habs
            · -- the spin won: the multiplier is unchanged
              rename_i hwon
              have hewon : e.won = true := by
                rw [← hlw]
                simpa using hwon
              split
              · exact hone _ hrs.1
              · split
                · refine hcomb _ hrs.1 hcursor.2.2.1 ?_
                  rw [hewon]
                  show s.currentMultiplier = _
                  rw [hcursor.2.2.2]
                · rename_i habs
                  exact absurd rfl habs

/-- Claim C9. For every visit to a martingale node with
`martingaleLimitType = spin_count` and `martingaleLimitValue = 3` (the inner
loop is entered with step count 0), at most 3 inner spins execute regardless
of bankroll; within the visit each recorded entry's wager snapshot is the base
bets scaled by a multiplier that starts at the state's multiplier and is
doubled after each spin that was not won (and only then); and if the tree node
entered after the sequence carries its own non-empty explicit wager list (and
is not a `reset` node, which reloads the root's wagers instead), the
multiplier is reset to 1 and that list becomes the active base wagers. -/
theorem martingale_spin_count_three (oracle : Nat → Nat) (init : Int)
    (cfg : SimConfig) (seqStart : Int) (fuel : Nat) (s : SimState)
    (root node : StrategyNode) (cr : Unit ⊕ StrategyNode) (bs : List PlacedBet)
    (t : SimState) :
    ((martingaleLoop oracle init cfg .spin_count 3 seqStart fuel 0 s).steps.length ≤
       s.steps.length + 3) ∧
    (((martingaleLoop oracle init cfg .spin_count 3 seqStart fuel 0 s).steps.drop
         s.steps.length).map (fun x => x.bets) =
       (martMultipliers s.currentMultiplier
          ((martingaleLoop oracle init cfg .spin_count 3 seqStart fuel 0 s).steps.drop
             s.steps.length)).map (fun m => scaleBets s.currentBaseBets m)) ∧
    (resolveChild root (some cr) = some node → node.bets = some bs →
      bs.length > 0 → node.type ≠ .reset →
      (applyNodeTransition oracle init root false (some cr) t).currentBaseBets = bs ∧
      (applyNodeTransition oracle init root false (some cr) t).currentMultiplier = 1) := by
  obtain ⟨h1, h2, h3⟩ := martingaleLoop_spin3 oracle init cfg seqStart fuel 0 s (by omega)
  refine ⟨by simpa using h2, h3, ?_⟩
  intro hres hbets hlen hne
  unfold applyNodeTransition
  rw [hres]
  dsimp only
  rw [hbets]
  dsimp only
  rw [if_pos hlen]
  cases htype : node.type
  all_goals try dsimp only
  all_goals
    first
    | exact absurd htype hne
    | exact ⟨rfl, rfl⟩

/-- The martingale fixture for the C9 witness: a $10 red wager under
`spin_count`/3. -/
def martBetRed : PlacedBet :=
  { type := .RED_BLACK, numbers := [], amount := 10, label := some "Red" }

def martSpinRoot : StrategyNode :=
  .mk .martingale (some [martBetRed]) none none none (some .spin_count) (some 3)
    none none none none

def martSpinCfg : SimConfig := { maxSpins := 20, tableMin := 1, tableMax := 10000 }

/-- A follow-up node carrying its own explicit wager list. -/
def nextCustomNode : StrategyNode :=
  .mk .custom_bet (some [straightBet17]) none none none none none none none none none

/-- Witness for C9: the concrete visit adds at most three entries, and
entering the bet-carrying follow-up node installs its wagers at multiplier 1. -/
theorem martingale_spin_count_three_witness :
    ((martingaleLoop (fun _ => 20) 1000 martSpinCfg .spin_count 3 1000 21 0
        (initState 1000 martSpinRoot)).steps.length ≤
      (initState 1000 martSpinRoot).steps.length + 3) ∧
    ((applyNodeTransition (fun _ => 20) 1000 martSpinRoot false
        (some (.inr nextCustomNode)) (initState 1000 martSpinRoot)).currentBaseBets =
        [straightBet17] ∧
      (applyNodeTransition (fun _ => 20) 1000 martSpinRoot false
        (some (.inr nextCustomNode)) (initState 1000 martSpinRoot)).currentMultiplier = 1) :=
  ⟨(martingale_spin_count_three (fun _ => 20) 1000 martSpinCfg 1000 21
      (initState 1000 martSpinRoot) martSpinRoot nextCustomNode
      (.inr nextCustomNode) [straightBet17] (initState 1000 martSpinRoot)).1,
   (martingale_spin_count_three (fun _ => 20) 1000 martSpinCfg 1000 21
      (initState 1000 martSpinRoot) martSpinRoot nextCustomNode
      (.inr nextCustomNode) [straightBet17] (initState 1000 martSpinRoot)).2.2
      rfl rfl (by decide) (by decide)⟩

/-! ## C5: playback fold vs engine statistics -/

def waitTwoCfg : SimConfig := { maxSpins := 2, tableMin := 1, tableMax := 500 }

/-- Claim C5 counterexample. The claim says the playback fold over a ledger
prefix equals the engine's statistics for those entries, with a `net == 0`
entry (including waits) counting as neither win nor loss. On a run whose first
entry is a wait spin (`net = 0`), the playback fold counts that entry as a
loss with a loss streak of 1, while the engine counts no loss: the folds
differ on the length-1 prefix of this three-entry-capable run (the prefix is
proper, so the UI really computes the fold rather than returning the final
stats). -/
theorem playback_fold_claim_false :
    displayedStatsFold 100
        ((runSimulation 10 (fun _ => 5) 100 waitStrategy waitTwoCfg).steps.take 1) ≠
      engineStatsFold 100
        ((runSimulation 10 (fun _ => 5) 100 waitStrategy waitTwoCfg).steps.take 1) ∧
    (displayedStatsFold 100
        ((runSimulation 10 (fun _ => 5) 100 waitStrategy waitTwoCfg).steps.take 1)).losses = 1 ∧
    (engineStatsFold 100
        ((runSimulation 10 (fun _ => 5) 100 waitStrategy waitTwoCfg).steps.take 1)).losses = 0 ∧
    ((runSimulation 10 (fun _ => 5) 100 waitStrategy waitTwoCfg).steps.take 1).map
        (fun e => e.net) = [0] ∧
    1 < (runSimulation 10 (fun _ => 5) 100 waitStrategy waitTwoCfg).steps.length := by
  refine ⟨by decide, by decide, by decide, by decide, by decide⟩

theorem foldl_stats_agree (initial : Int) :
    ∀ (steps : List SimulationStep),
      (∀ e ∈ steps, e.net ≠ 0 ∧ e.won = decide (e.net > 0) ∧
        isWaitTag e.actionType = false) →
      ∀ a : FoldAcc,
        List.foldl (displayedStatsUpdate initial) a steps =
          List.foldl (engineStatsUpdate initial) a steps
  | [], _, a => rfl
  | e :: rest, h, a => by
      obtain ⟨hne, hwon, hwait⟩ := h e (List.mem_cons_self _ _)
      have hstep : displayedStatsUpdate initial a e = engineStatsUpdate initial a e := by
        unfold displayedStatsUpdate engineStatsUpdate
        rw [hwait, if_neg (by decide : ¬(false = true))]
        rcases lt_trichotomy e.net 0 with hlt | heq | hgt
        · have hw : e.won = false := by
            rw [hwon]
            simp only [decide_eq_false_iff_not, not_lt]
            omega
          rw [hw, if_neg (by decide : ¬(false = true)),
            if_neg (by omega : ¬(e.net > 0)), if_pos hlt]
        · exact absurd heq hne
        · have hw : e.won = true := by
            rw [hwon]
            simp [hgt]
          rw [hw, if_pos (show (true = true) from rfl), if_pos hgt]
      rw [List.foldl_cons, List.foldl_cons, hstep]
      exact foldl_stats_agree initial rest (fun x hx => h x (List.mem_cons_of_mem _ hx)) _

/-- Claim C5, amended. The playback fold of the UI equals the engine's statistics
fold on every ledger prefix all of whose entries are non-wait betting entries
with `net ≠ 0` (their `won` flag being `net > 0`, as the engine records it).
In general the two disagree: the playback fold counts a `net == 0` entry —
including wait entries — as a loss that extends the loss streak, while the
engine counts it as neither a win nor a loss (a net-0 bet resets both streak
counters and a wait entry is skipped entirely). -/
theorem playback_fold_matches_engine (initial : Int) (steps : List SimulationStep)
    (h : ∀ e ∈ steps, e.net ≠ 0 ∧ e.won = decide (e.net > 0) ∧
      isWaitTag e.actionType = false) :
    displayedStatsFold initial steps = engineStatsFold initial steps := by
  unfold displayedStatsFold engineStatsFold
  exact foldl_stats_agree initial steps h _

/-- Witness for the amended C5 theorem on the ledger of a concrete all-betting
run. -/
theorem playback_fold_matches_engine_witness :
    (∀ e ∈ (runSimulation 5 (fun _ => 17) 100 demoStrategy demoConfig).steps,
      e.net ≠ 0 ∧ e.won = decide (e.net > 0) ∧ isWaitTag e.actionType = false) ∧
    displayedStatsFold 100 (runSimulation 5 (fun _ => 17) 100 demoStrategy demoConfig).steps =
      engineStatsFold 100 (runSimulation 5 (fun _ => 17) 100 demoStrategy demoConfig).steps :=
  ⟨by decide, playback_fold_matches_engine 100 _ (by decide)⟩

/-! ## C8: wait_condition nodes -/

/-- An interior `wait_condition` node waiting for red. -/
def waitCondChild : StrategyNode :=
  .mk .wait_condition none none (some "red") none none none none none none none

/-- A betting root both of whose children are the `wait_condition` node. -/
def betThenWaitRoot : StrategyNode :=
  .mk .start_immediately (some [straightBet17]) none none none none none none none
    (some (.inr waitCondChild)) (some (.inr waitCondChild))

def betThenWaitStrategy : StrategyConfig :=
  { rootNode := betThenWaitRoot, stopLoss := 0, takeProfit := 0 }

def fiveSpinCfg : SimConfig := { maxSpins := 5, tableMin := 1, tableMax := 500 }

/-- Claim C8 counterexample. The claim says that whenever the traversal reaches a
`wait_condition` node — even as an interior win/loss child — zero-wager wait
spins are consumed until the condition (here: red) is satisfied. In this run
the first spin branches into the `wait_condition` child and every following
spin lands on black 20, so the claim predicts zero-wager `WAITING_FOR_RED`
entries from the second entry on; the code's child-dispatch switch has no
`wait_condition` case, so every entry is a full $5 betting spin and no wait
entry ever appears. -/
theorem wait_condition_interior_claim_false :
    betThenWaitRoot.childWin = some (.inr waitCondChild) ∧
    betThenWaitRoot.childLoss = some (.inr waitCondChild) ∧
    waitCondChild.type = .wait_condition ∧
    waitCondChild.condition = some "red" ∧
    (generateSpin 20).color = "black" ∧
    ((runSimulation 10 (fun _ => 20) 100 betThenWaitStrategy fiveSpinCfg).steps.map
        (fun e => e.betTotal)) = [5, 5, 5, 5, 5] ∧
    ((runSimulation 10 (fun _ => 20) 100 betThenWaitStrategy fiveSpinCfg).steps.all
        (fun e => !(isWaitTag e.actionType))) = true :=
  ⟨rfl, rfl, rfl, rfl, by decide, by decide, by decide⟩

/-- The ledger entry a wait-mode `recordStep` pushes. -/
def waitEntry (result : SpinResult) (tag : String) (s : SimState) : SimulationStep :=
  { spinIndex := s.spinsConsumed + 1, result := result, bets := [], outcomes := [],
    betTotal := 0, payout := 0, net := 0, bankroll := s.bankroll + 0,
    won := false, actionType := tag }

theorem recordStep_wait_eq (init : Int) (result : SpinResult) (tag : String)
    (s : SimState) :
    (recordStep init result [] tag true s).1.steps =
      s.steps ++ [waitEntry result tag s] ∧
    (recordStep init result [] tag true s).1.wins = s.wins ∧
    (recordStep init result [] tag true s).1.losses = s.losses ∧
    (recordStep init result [] tag true s).1.spinsConsumed = s.spinsConsumed + 1 :=
  ⟨rfl, rfl, rfl, rfl⟩

/-- A met condition makes the wait loop return immediately. -/
theorem waitCondLoop_met (oracle : Nat → Nat) (init : Int) (c : String) :
    ∀ (fuel : Nat) (s : SimState), waitCondLoop oracle init c fuel true s = s
  | 0, _ => rfl
  | fuel + 1, s => by
      unfold waitCondLoop
      rw [if_pos rfl]

theorem waitCondLoop_waitInv (oracle : Nat → Nat) (init : Int) (c : String) :
    ∀ (fuel : Nat) (cm : Bool) (s : SimState),
      (∀ e ∈ (waitCondLoop oracle init c fuel cm s).steps, e ∈ s.steps ∨
        (e.bets = [] ∧ e.betTotal = 0 ∧ e.net = 0 ∧ e.won = false ∧
          e.actionType = "WAITING_FOR_" ++ c.toUpper)) ∧
      ((waitCondLoop oracle init c fuel cm s).spinsConsumed ≤ s.spinsConsumed + fuel) ∧
      ((waitCondLoop oracle init c fuel cm s).wins = s.wins) ∧
      ((waitCondLoop oracle init c fuel cm s).losses = s.losses)
  | 0, cm, s =>
      ⟨fun _ he => .inl he,
       by rw [show waitCondLoop oracle init c 0 cm s = s from rfl]; omega, rfl, rfl⟩
  | fuel + 1, cm, s => by
      unfold waitCondLoop
      split
      · exact ⟨fun _ he => .inl he, by omega, rfl, rfl⟩
      · dsimp only
        obtain ⟨ih1, ih2, ih3, ih4⟩ := waitCondLoop_waitInv oracle init c fuel
          ((c = "red" && (drawAt oracle s).color = "red") ||
            (c = "black" && (drawAt oracle s).color = "black"))
          (recordStep init (drawAt oracle s) [] ("WAITING_FOR_" ++ c.toUpper) true s).1
        have hrw := recordStep_wait_eq init (drawAt oracle s)
          ("WAITING_FOR_" ++ c.toUpper) s
        refine ⟨?_, ?_, ?_, ?_⟩
        · intro e he
          rcases ih1 e he with h | h
          · rw [hrw.1] at h
            rcases List.mem_append.mp h with h' | h'
            · exact .inl h'
            · rcases List.mem_singleton.mp h' with rfl
              exact .inr ⟨rfl, rfl, rfl, rfl, rfl⟩
          · exact .inr h
        · rw [hrw.2.2.2] at ih2
          omega
        · rw [ih3, hrw.2.1]
        · rw [ih4, hrw.2.2.1]

/-- Claim C8, amended. Only when the `wait_condition` node is the tree root does
the simulation consume wait spins: the pre-sim `wait_condition` loop (entered
with 200 fuel — the hard safety cap) records only zero-wager entries tagged
`WAITING_FOR_<CONDITION>` with `betTotal` 0, `net` 0 and `won = false`, adds at
most `fuel` (hence at most 200) spins, leaves the win/loss statistics counters
untouched, and stops right after the first spin satisfying the condition; and
for a root `wait_condition` node with a truthy condition, `runSimulation` runs
exactly this loop before its main loop. An interior `wait_condition` node
reached as a win/loss child consumes no wait spins (see the counterexample). -/
theorem wait_condition_root_semantics (oracle : Nat → Nat) (init : Int)
    (c : String) (fuel : Nat) (cm : Bool) (s : SimState)
    (strategy : StrategyConfig) (cfg : SimConfig) (mfuel : Nat) :
    (∀ e ∈ (waitCondLoop oracle init c fuel cm s).steps, e ∈ s.steps ∨
      (e.bets = [] ∧ e.betTotal = 0 ∧ e.net = 0 ∧ e.won = false ∧
        e.actionType = "WAITING_FOR_" ++ c.toUpper)) ∧
    ((waitCondLoop oracle init c fuel cm s).spinsConsumed ≤ s.spinsConsumed + fuel) ∧
    ((waitCondLoop oracle init c fuel cm s).wins = s.wins) ∧
    ((waitCondLoop oracle init c fuel cm s).losses = s.losses) ∧
    (c = "red" → (generateSpin (oracle s.spinsConsumed)).color = "red" → cm = false →
      (waitCondLoop oracle init c (fuel + 1) cm s).spinsConsumed = s.spinsConsumed + 1) ∧
    (strategy.rootNode.type = .wait_condition →
      truthyStr strategy.rootNode.condition = true →
      (runSimulation mfuel oracle init strategy cfg).final =
        (mainLoop oracle init strategy cfg mfuel
          (waitCondLoop oracle init (strategy.rootNode.condition.getD "") 200 false
            (initState init strategy.rootNode))).1) := by
  obtain ⟨h1, h2, h3, h4⟩ := waitCondLoop_waitInv oracle init c fuel cm s
  refine ⟨h1, h2, h3, h4, ?_, ?_⟩
  · intro hc hred hcm
    subst hc hcm
    unfold waitCondLoop
    rw [if_neg (by decide : ¬(false = true))]
    dsimp only
    have hmet : (("red" = "red" && (drawAt oracle s).color = "red") ||
        ("red" = "black" && (drawAt oracle s).color = "black")) = true := by
      have : (drawAt oracle s).color = "red" := hred
      rw [this]
      decide
    rw [hmet, waitCondLoop_met]
    exact (recordStep_wait_eq init (drawAt oracle s) ("WAITING_FOR_" ++ "red".toUpper) s).2.2.2
  · intro hroot htruthy
    unfold runSimulation
    dsimp only
    rw [if_neg (fun hand => by rw [hroot] at hand; exact absurd hand.1 (by decide)),
      if_pos ⟨hroot, htruthy⟩]

/-- Witness for the amended C8 theorem at a concrete pre-sim wait loop that
sees red on its first spin. -/
theorem wait_condition_root_semantics_witness :
    ((waitCondLoop (fun _ => 1) 100 "red" 3 false (initState 100 demoRoot)).spinsConsumed ≤
      (initState 100 demoRoot).spinsConsumed + 3) ∧
    (waitCondLoop (fun _ => 1) 100 "red" (2 + 1) false
      (initState 100 demoRoot)).spinsConsumed =
      (initState 100 demoRoot).spinsConsumed + 1 :=
  ⟨(wait_condition_root_semantics (fun _ => 1) 100 "red" 3 false
      (initState 100 demoRoot) demoStrategy demoConfig 0).2.1,
   (wait_condition_root_semantics (fun _ => 1) 100 "red" 2 false
      (initState 100 demoRoot) demoStrategy demoConfig 0).2.2.2.2.1
      rfl (by decide) rfl⟩

/-! ## C4: terminal checks before spins -/

/-- The guard conditions the main loop checks before a standard single spin,
read off a ledger entry: `e.bankroll - e.net` is the bankroll when the spin
was drawn and `e.spinIndex - 1` the number of spins consumed before it. -/
def MainGuardOK (strategy : StrategyConfig) (cfg : SimConfig) (e : SimulationStep) : Prop :=
  e.spinIndex - 1 < cfg.maxSpins ∧
  e.bankroll - e.net > strategy.stopLoss ∧
  ¬(strategy.takeProfit > 0 ∧ e.bankroll - e.net ≥ strategy.takeProfit) ∧
  e.bankroll - e.net > 0

/-- The guard conditions the martingale and repeat-until inner loops check
before each of their spins: spin budget and positive bankroll only. -/
def BudgetGuardOK (cfg : SimConfig) (e : SimulationStep) : Prop :=
  e.spinIndex - 1 < cfg.maxSpins ∧ e.bankroll - e.net > 0

/-- What is actually guaranteed for a ledger entry, by the loop that drew it
(classified by its action tag). -/
def GuardOK (strategy : StrategyConfig) (cfg : SimConfig) (e : SimulationStep) : Prop :=
  (isMainTag e.actionType = true → MainGuardOK strategy cfg e) ∧
  (isMartTag e.actionType = true → BudgetGuardOK cfg e) ∧
  (isRepTag e.actionType = true → BudgetGuardOK cfg e)

theorem tags_of_waitFor (x : String) :
    isMainTag ("WAITING_FOR_" ++ x) = false ∧ isMartTag ("WAITING_FOR_" ++ x) = false ∧
    isRepTag ("WAITING_FOR_" ++ x) = false := by
  obtain ⟨xd⟩ := x
  exact ⟨rfl, rfl, rfl⟩

theorem tags_of_mart (x : String) :
    isMainTag ("MARTINGALE_x" ++ x) = false ∧ isMartTag ("MARTINGALE_x" ++ x) = true ∧
    isRepTag ("MARTINGALE_x" ++ x) = false := by
  obtain ⟨xd⟩ := x
  refine ⟨rfl, ?_, rfl⟩
  show ("MARTINGALE_x".data.isPrefixOf (("MARTINGALE_x" ++ String.mk xd).data)) = true
  rw [String.data_append,
    show "MARTINGALE_x".data = ['M', 'A', 'R', 'T', 'I', 'N', 'G', 'A', 'L', 'E', '_', 'x']
      from rfl]
  simp [List.isPrefixOf]

theorem tags_of_rep (rt : RepeatUntilType) :
    isMainTag ("REPEAT_" ++ rt.upper) = false ∧ isMartTag ("REPEAT_" ++ rt.upper) = false ∧
    isRepTag ("REPEAT_" ++ rt.upper) = true := by
  cases rt <;> exact ⟨rfl, rfl, rfl⟩

/-- Entries whose tag is in none of the three classes satisfy `GuardOK`
vacuously. -/
theorem guardOK_vacuous (strategy : StrategyConfig) (cfg : SimConfig)
    (e : SimulationStep) (hmain : isMainTag e.actionType = false)
    (hmart : isMartTag e.actionType = false) (hrep : isRepTag e.actionType = false) :
    GuardOK strategy cfg e :=
  ⟨fun h => absurd h (by simp [hmain]), fun h => absurd h (by simp [hmart]),
   fun h => absurd h (by simp [hrep])⟩

theorem waitSpinsPhase_guarded (strategy : StrategyConfig) (cfg : SimConfig)
    (oracle : Nat → Nat) (init : Int) (n : Nat) (s : SimState) :
    ∀ e ∈ (waitSpinsPhase oracle init n s).steps,
      e ∈ s.steps ∨ GuardOK strategy cfg e := by
  refine foldl_preserves
    (P := fun t => ∀ e ∈ t.steps, e ∈ s.steps ∨ GuardOK strategy cfg e)
    ?_ (List.range n) s (fun _ he => .inl he)
  intro t _ ht e he
  rcases recordStep_steps_cases init (drawAt oracle t) [] "WAITING" true t e he with h | h
  · exact ht e h
  · exact .inr (guardOK_vacuous strategy cfg e (by rw [h.1]; decide)
      (by rw [h.1]; decide) (by rw [h.1]; decide))

theorem waitCondLoop_guarded (strategy : StrategyConfig) (cfg : SimConfig)
    (oracle : Nat → Nat) (init : Int) (c : String) :
    ∀ (fuel : Nat) (cm : Bool) (s : SimState),
      ∀ e ∈ (waitCondLoop oracle init c fuel cm s).steps,
        e ∈ s.steps ∨ GuardOK strategy cfg e
  | 0, _, _, _, he => .inl he
  | fuel + 1, cm, s, e, he => by
      rw [waitCondLoop] at he
      split at he
      · exact .inl he
      · rcases waitCondLoop_guarded strategy cfg oracle init c fuel _ _ e he with h | h
        · rcases recordStep_steps_cases init (drawAt oracle s) []
            ("WAITING_FOR_" ++ c.toUpper) true s e h with h' | h'
          · exact .inl h'
          · refine .inr (guardOK_vacuous strategy cfg e ?_ ?_ ?_) <;> rw [h'.1]
            · exact (tags_of_waitFor c.toUpper).1
            · exact (tags_of_waitFor c.toUpper).2.1
            · exact (tags_of_waitFor c.toUpper).2.2
        · exact .inr h

theorem martingaleLoop_guarded (strategy : StrategyConfig) (oracle : Nat → Nat)
    (init : Int) (cfg : SimConfig) (lt : MartingaleLimitType) (lv seqStart : Int) :
    ∀ (fuel stepCount : Nat) (s : SimState),
      ∀ e ∈ (martingaleLoop oracle init cfg lt lv seqStart fuel stepCount s).steps,
        e ∈ s.steps ∨ GuardOK strategy cfg e
  | 0, _, _ => fun _ he => .inl he
  | fuel + 1, stepCount, s => by
      unfold martingaleLoop
      split
      · exact fun _ he => .inl he
      · rename_i hguard
        have hg : s.spinsConsumed < cfg.maxSpins ∧ s.bankroll > 0 := by
          simpa using hguard
        have hcase : ∀ e ∈ (recordStep init (drawAt oracle s)
            (scaleBets s.currentBaseBets s.currentMultiplier)
            ("MARTINGALE_x" ++ toString s.currentMultiplier) false s).1.steps,
            e ∈ s.steps ∨ GuardOK strategy cfg e := by
          intro e he
          rcases recordStep_steps_cases init (drawAt oracle s)
            (scaleBets s.currentBaseBets s.currentMultiplier)
            ("MARTINGALE_x" ++ toString s.currentMultiplier) false s e he with h | h
          · exact .inl h
          · right
            refine ⟨fun hm => absurd hm ?_, fun _ => ⟨?_, ?_⟩, fun hr => absurd hr ?_⟩
            · rw [h.1]
              simp [(tags_of_mart (toString s.currentMultiplier)).1]
            · rw [h.2.1]
              omega
            · rw [h.2.2]
              exact hg.2
            · rw [h.1]
              simp [(tags_of_mart (toString s.currentMultiplier)).2.2]
        cases lt <;> (dsimp only; repeat' (split <;> (try dsimp only))) <;>
          first
          | exact fun _ he => .inl he
          | exact hcase
          | exact fun e he =>
              ((martingaleLoop_guarded strategy oracle init cfg _ lv seqStart
                  fuel _ _ e he).elim (fun h => hcase e h) .inr)

theorem repeatLoop_guarded (strategy : StrategyConfig) (oracle : Nat → Nat)
    (init : Int) (cfg : SimConfig) (rt : RepeatUntilType) (rv seqStart : Int) :
    ∀ (fuel loopSpins loopWins : Nat) (s : SimState),
      ∀ e ∈ (repeatLoop oracle init cfg rt rv seqStart fuel loopSpins loopWins s).steps,
        e ∈ s.steps ∨ GuardOK strategy cfg e
  | 0, _, _, _ => fun _ he => .inl he
  | fuel + 1, loopSpins, loopWins, s => by
      unfold repeatLoop
      split
      · exact fun _ he => .inl he
      · rename_i hguard
        have hg : s.spinsConsumed < cfg.maxSpins ∧ s.bankroll > 0 := by
          simpa using hguard
        have hcase : ∀ (ab : List PlacedBet),
            ∀ e ∈ (recordStep init (drawAt oracle s) ab
              ("REPEAT_" ++ rt.upper) false s).1.steps,
              e ∈ s.steps ∨ GuardOK strategy cfg e := by
          intro ab e he
          rcases recordStep_steps_cases init (drawAt oracle s) ab
            ("REPEAT_" ++ rt.upper) false s e he with h | h
          · exact .inl h
          · right
            refine ⟨fun hm => absurd hm ?_, fun hm => absurd hm ?_, fun _ => ⟨?_, ?_⟩⟩
            · rw [h.1]
              simp [(tags_of_rep rt).1]
            · rw [h.1]
              simp [(tags_of_rep rt).2.1]
            · rw [h.2.1]
              omega
            · rw [h.2.2]
              exact hg.2
        dsimp only
        (repeat' (split <;> (try dsimp only))) <;>
          first
          | exact fun _ he => .inl he
          | exact hcase _
          | exact fun e he =>
              ((repeatLoop_guarded strategy oracle init cfg rt rv seqStart
                  fuel _ _ _ e he).elim (fun h => hcase _ e h) .inr)

theorem waitSpinsPhase_guarded_from (strategy : StrategyConfig) (cfg : SimConfig)
    (oracle : Nat → Nat) (init : Int) (n : Nat) (t : SimState)
    (base : List SimulationStep) :
    ∀ e ∈ (waitSpinsPhase oracle init n t).steps, t.steps = base →
      e ∈ base ∨ GuardOK strategy cfg e := by
  intro e he hbase
  rcases waitSpinsPhase_guarded strategy cfg oracle init n t e he with h | h
  · rw [hbase] at h
    exact .inl h
  · exact .inr h

theorem applyNodeTransition_guarded (strategy : StrategyConfig) (cfg : SimConfig)
    (oracle : Nat → Nat) (init : Int) (root : StrategyNode) (wwc : Bool)
    (next : Option (Unit ⊕ StrategyNode)) (s : SimState) :
    ∀ e ∈ (applyNodeTransition oracle init root wwc next s).steps,
      e ∈ s.steps ∨ GuardOK strategy cfg e := by
  unfold applyNodeTransition
  (repeat' (split <;> (try dsimp only))) <;>
    first
    | exact fun _ he => .inl he
    | exact fun e he =>
        waitSpinsPhase_guarded_from strategy cfg oracle init _ _ _ e he rfl

theorem mainStep_guarded (strategy : StrategyConfig) (cfg : SimConfig)
    (oracle : Nat → Nat) (init : Int) (s : SimState)
    (h1 : s.spinsConsumed < cfg.maxSpins) (h2 : s.bankroll > strategy.stopLoss)
    (h3 : ¬(strategy.takeProfit > 0 ∧ s.bankroll ≥ strategy.takeProfit))
    (h4 : s.bankroll > 0) :
    ∀ e ∈ (mainStep oracle init strategy cfg s).1.steps,
      e ∈ s.steps ∨ GuardOK strategy cfg e := by
  have hcase : ∀ (ab : List PlacedBet) (tag : String),
      isMainTag tag = true ∧ isMartTag tag = false ∧ isRepTag tag = false →
      ∀ e ∈ (recordStep init (drawAt oracle s) ab tag false s).1.steps,
        e ∈ s.steps ∨ GuardOK strategy cfg e := by
    intro ab tag htags e he
    rcases recordStep_steps_cases init (drawAt oracle s) ab tag false s e he with h | h
    · exact .inl h
    · right
      refine ⟨fun _ => ⟨?_, ?_, ?_, ?_⟩, fun hm => absurd hm ?_, fun hr => absurd hr ?_⟩
      · rw [h.2.1]
        omega
      · rw [h.2.2]
        exact h2
      · rw [h.2.2]
        exact h3
      · rw [h.2.2]
        exact h4
      · rw [h.1]
        simp [htags.2.1]
      · rw [h.1]
        simp [htags.2.2]
  unfold mainStep
  dsimp only
  split
  · exact fun e he =>
      ((applyNodeTransition_guarded strategy cfg oracle init _ _ _ _ e he).elim
        (fun h => martingaleLoop_guarded strategy oracle init cfg _ _ _ _ _ _ e h) .inr)
  · split
    · exact fun e he =>
        ((applyNodeTransition_guarded strategy cfg oracle init _ _ _ _ e he).elim
          (fun h => repeatLoop_guarded strategy oracle init cfg _ _ _ _ _ _ _ e h) .inr)
    · (repeat' (split <;> (try dsimp only))) <;>
        first
        | exact fun _ he => .inl he
        | exact fun e he =>
            ((applyNodeTransition_guarded strategy cfg oracle init _ _ _ _ e he).elim
              (fun h => hcase _ _ ⟨by decide, by decide, by decide⟩ e h) .inr)

theorem mainLoop_guarded (strategy : StrategyConfig) (cfg : SimConfig)
    (oracle : Nat → Nat) (init : Int) :
    ∀ (fuel : Nat) (s : SimState),
      ∀ e ∈ (mainLoop oracle init strategy cfg fuel s).1.steps,
        e ∈ s.steps ∨ GuardOK strategy cfg e
  | 0, _ => fun _ he => .inl he
  | fuel + 1, s => by
      unfold mainLoop
      split
      · exact fun _ he => .inl he
      · rename_i hg1
        split
        · exact fun _ he => .inl he
        · rename_i hg2
          split
          · exact fun _ he => .inl he
          · rename_i hg3
            split
            · exact fun _ he => .inl he
            · rename_i hg4
              dsimp only
              have hms := mainStep_guarded strategy cfg oracle init s
                (by simpa using hg1) (by omega) hg3 (by omega)
              split
              · exact fun e he => hms e he
              · exact fun e he =>
                  ((mainLoop_guarded strategy cfg oracle init fuel _ e he).elim
                    (fun h => hms e h) .inr)

/-- Claim C4, amended. Every ledger entry drawn by the standard single-spin path
of the main loop (tags `START`, `BET`, `NO_BET`) is drawn with all four
terminal conditions checked and false — spin budget unexhausted, bankroll
above the stop-loss, take-profit (when positive) not reached, bankroll
positive. Entries drawn inside the martingale and repeat-until inner loops
(tags `MARTINGALE_x…`, `REPEAT_…`) are guaranteed only the spin budget and a
positive bankroll: the inner loops do not re-check stop-loss or take-profit.
Wait spins (pre-sim phases and `wait_spins` children) are not guarded at all —
the counterexample shows a wait spin drawn with the budget already
exhausted. -/
theorem spins_guarded (fuel : Nat) (oracle : Nat → Nat) (init : Int)
    (strategy : StrategyConfig) (cfg : SimConfig) :
    ∀ e ∈ (runSimulation fuel oracle init strategy cfg).steps,
      (isMainTag e.actionType = true → MainGuardOK strategy cfg e) ∧
      (isMartTag e.actionType = true → BudgetGuardOK cfg e) ∧
      (isRepTag e.actionType = true → BudgetGuardOK cfg e) := by
  unfold runSimulation
  dsimp only
  intro e he
  rcases mainLoop_guarded strategy cfg oracle init fuel _ e he with h | h
  · split at h
    · rcases waitSpinsPhase_guarded strategy cfg oracle init _ _ e h with h' | h'
      · exact absurd h' (List.not_mem_nil e)
      · exact h'
    · split at h
      · rcases waitCondLoop_guarded strategy cfg oracle init _ 200 false _ e h with h' | h'
        · exact absurd h' (List.not_mem_nil e)
        · exact h'
      · exact absurd h (List.not_mem_nil e)
  · exact h

/-- Witness for the amended C4 theorem at the first entry of a concrete run. -/
theorem spins_guarded_witness :
    ((runSimulation 5 (fun _ => 17) 100 demoStrategy demoConfig).steps.getD 0 dummyStep ∈
      (runSimulation 5 (fun _ => 17) 100 demoStrategy demoConfig).steps) ∧
    ((isMainTag ((runSimulation 5 (fun _ => 17) 100 demoStrategy demoConfig).steps.getD 0
          dummyStep).actionType = true →
        MainGuardOK demoStrategy demoConfig
          ((runSimulation 5 (fun _ => 17) 100 demoStrategy demoConfig).steps.getD 0 dummyStep)) ∧
      (isMartTag ((runSimulation 5 (fun _ => 17) 100 demoStrategy demoConfig).steps.getD 0
          dummyStep).actionType = true →
        BudgetGuardOK demoConfig
          ((runSimulation 5 (fun _ => 17) 100 demoStrategy demoConfig).steps.getD 0 dummyStep)) ∧
      (isRepTag ((runSimulation 5 (fun _ => 17) 100 demoStrategy demoConfig).steps.getD 0
          dummyStep).actionType = true →
        BudgetGuardOK demoConfig
          ((runSimulation 5 (fun _ => 17) 100 demoStrategy demoConfig).steps.getD 0 dummyStep))) :=
  ⟨by decide, spins_guarded 5 (fun _ => 17) 100 demoStrategy demoConfig _ (by decide)⟩

/-- Claim C4 counterexample. The claim says no spin is ever executed while the
spin budget is exhausted, wait phases included. A `wait_spins` root with
`maxSpins = 0` draws and records a spin (spin index 1, i.e. drawn with 0 spins
remaining in a budget of 0): the pre-sim wait phase performs no terminal
checks at all. -/
theorem terminal_checks_claim_false :
    zeroSpinConfig.maxSpins = 0 ∧
    ((runSimulation 5 (fun _ => 5) 100 waitStrategy zeroSpinConfig).steps.map
      (fun e => e.spinIndex)) = [1] :=
  ⟨rfl, by decide⟩

end TBR
